import Mathlib

/-!
A shallow embedding of `main.go` of youtube-ul.

The program is sequential glue around the operating system, the `flag`,
`encoding/json`, `oauth2`, `pb` and `youtube` packages.  The embedding keeps the
control flow of every function of `main.go` and threads three things explicitly:

* the world (`World`): the file system, the two output streams and the progress
  indicator shown on the terminal;
* the surroundings (`Env`): the outcome of every call whose result the program
  cannot determine itself (permissions, the clock, the remote services, the JSON codec);
* the list of file-system and network calls a computation performs (`Event`).

`log.Fatalf` and `os.Exit` end the process at once: deferred calls do not run.
-/

namespace YoutubeUl

/-! ## Data -/

/-- File contents. -/
abbrev Bytes := List UInt8

/-- An instant (`time.Time`), as a count of nanoseconds. -/
abbrev Time := Int

/-- Modelled from the spec: the declaration of `oauth2.Token` is not part of the
repository; the Token Record is "access token string, optional refresh token
string, expiry timestamp". -/
structure Token where
  AccessToken : String
  RefreshToken : Option String
  Expiry : Time
deriving DecidableEq, Repr

/-- Modelled from the spec: the declaration of `oauth2.Config` is not part of the
repository; the Credentials Record is "client identity and secret plus
authorization/token endpoint URLs". -/
structure Config where
  ClientID : String
  ClientSecret : String
  AuthURL : String
  TokenURL : String
deriving DecidableEq, Repr

/-- The `*http.Client` built by `config.Client(ctx, tok)`: it attaches `tok` to requests. -/
structure Client where
  config : Config
  token : Token
deriving DecidableEq, Repr

/-- The fields of `youtube.VideoSnippet` that `uploadVideo` sets. -/
structure VideoSnippet where
  Title : String
  Description : String
  Tags : List String
  CategoryId : String
deriving DecidableEq, Repr

/-- The field of `youtube.VideoStatus` that `uploadVideo` sets. -/
structure VideoStatus where
  PrivacyStatus : String
deriving DecidableEq, Repr

/-- The `youtube.Video` resource sent with the insert call. -/
structure Video where
  Snippet : VideoSnippet
  Status : VideoStatus
deriving DecidableEq, Repr

/-- The progress indicator of package `pb`: total, cumulative count, stopped or not. -/
structure ProgressBar where
  total : Nat
  current : Nat
  finished : Bool
deriving DecidableEq, Repr

/-- An open file handle: the path it was opened on and the read offset. -/
structure File where
  name : String
  offset : Nat
deriving DecidableEq, Repr

/-- What `file.Stat()` reports. -/
structure FileInfo where
  Name : String
  Size : Nat
deriving DecidableEq, Repr

/-- The calls a run makes on the file system, the terminal input and the network,
in the order they are made. -/
inductive Event where
  /-- `os.ReadFile(path)`. -/
  | readFile (path : String)
  /-- `os.Open(path)`. -/
  | osOpen (path : String)
  /-- `os.OpenFile(path, O_RDWR|O_CREATE|O_TRUNC, 0600)`. -/
  | openFile (path : String)
  /-- `Stat` on a handle of `path`. -/
  | stat (path : String)
  /-- A read on a handle of `path` that delivered `n` bytes. -/
  | read (path : String) (n : Nat)
  /-- A write on a handle of `path`. -/
  | write (path : String)
  /-- `Close` on a handle of `path`. -/
  | close (path : String)
  /-- `os.Remove(path)`. -/
  | remove (path : String)
  /-- `fmt.Scan` on standard input. -/
  | scan
  /-- `config.Exchange(ctx, code)`. -/
  | exchange (code : String)
  /-- `tokenSource.Token()` on the source made from `tok`. -/
  | tokenRequest (tok : Token)
  /-- `youtube.NewService`. -/
  | newService
  /-- `service.Videos.Insert(parts, video).Media(reader).Do()`: the parts asked for,
  the resource, the bytes the call took from the reader, and the video id on success. -/
  | insert (parts : List String) (video : Video) (body : Bytes) (id : Option String)
deriving DecidableEq, Repr

/-- The mutable world. -/
structure World where
  /-- The file system: the content of every existing file. -/
  files : String → Option Bytes
  /-- Lines written to standard output. -/
  stdout : List String
  /-- Lines written to standard error. -/
  stderr : List String
  /-- The progress indicator on the terminal, once started. -/
  bar : Option ProgressBar

/-- Outcomes decided outside the program. -/
structure Env where
  /-- `time.Now()`. -/
  now : Time
  /-- The existing file cannot be opened for reading. -/
  readDenied : String → Bool
  /-- The file cannot be opened (created, truncated) for writing. -/
  writeDenied : String → Bool
  /-- Writing to the opened file fails. -/
  writeFails : String → Bool
  /-- `Stat` on the opened file fails. -/
  statFails : String → Bool
  /-- The file cannot be removed. -/
  removeDenied : String → Bool
  /-- The JSON text `json.Encoder` produces for a token, if it can be marshalled. -/
  encode : Token → Option Bytes
  /-- The token `json.Decoder` reads from a content, if it is well formed. -/
  decode : Bytes → Option Token
  /-- `google.ConfigFromJSON`. -/
  configFromJSON : Bytes → Option Config
  /-- `youtube.NewService` fails. -/
  newServiceFails : Bool
  /-- The authorization URL made by `config.AuthCodeURL`. -/
  authCodeURL : Config → String
  /-- The word the operator types, if standard input delivers one. -/
  authCode : Option String
  /-- The token endpoint's answer to a code exchange. -/
  exchange : String → Option Token
  /-- The token source's answer for a cached token. -/
  refresh : Token → Option Token
  /-- The sizes of the successive reads the upload makes on its media reader;
  when they run out before the end of the file the transport has given up. -/
  readSizes : List Nat
  /-- The platform's answer to a complete upload: the video id, or an error. -/
  remote : Video → Bytes → Option String

/-! ## Computations -/

/-- How a computation ends: it returns a value, or the process exits with a code. -/
inductive Status (α : Type) where
  | returned (a : α)
  | exited (code : Nat)
deriving DecidableEq, Repr

/-- The result of running a computation: how it ended, the world it left, the calls it made. -/
structure Outcome (α : Type) where
  status : Status α
  world : World
  events : List Event

/-- A computation of the program. -/
def Prog (α : Type) : Type := World → Outcome α

/-- Return a value, touching nothing. -/
def Prog.pure {α : Type} (a : α) : Prog α := fun w => ⟨.returned a, w, []⟩

/-- Sequencing: an exit ends everything that would follow. -/
def Prog.bind {α β : Type} (m : Prog α) (f : α → Prog β) : Prog β := fun w =>
  match (m w).status with
  | .returned a =>
    ⟨(f a (m w).world).status, (f a (m w).world).world, (m w).events ++ (f a (m w).world).events⟩
  | .exited c => ⟨.exited c, (m w).world, (m w).events⟩

instance : Monad Prog where
  pure := Prog.pure
  bind := Prog.bind

/-- Record one call. -/
def emit (e : Event) : Prog Unit := fun w => ⟨.returned (), w, [e]⟩

/-- The world as it is. -/
def getWorld : Prog World := fun w => ⟨.returned w, w, []⟩

/-- Replace the world. -/
def setWorld (w : World) : Prog Unit := fun _ => ⟨.returned (), w, []⟩

/-- `os.Exit(code)`. -/
def osExit {α : Type} (code : Nat) : Prog α := fun w => ⟨.exited code, w, []⟩

/-- `fmt.Println` / `fmt.Printf` of one line. -/
def println (s : String) : Prog Unit := fun w =>
  ⟨.returned (), { w with stdout := w.stdout ++ [s] }, []⟩

/-- A line on standard error. -/
def eprintln (s : String) : Prog Unit := fun w =>
  ⟨.returned (), { w with stderr := w.stderr ++ [s] }, []⟩

/-- Several lines on standard error. -/
def eprintlns (lines : List String) : Prog Unit := fun w =>
  ⟨.returned (), { w with stderr := w.stderr ++ lines }, []⟩

/-- `log.Fatalf`: the message goes to standard error and the process exits with 1. -/
def logFatalf {α : Type} (msg : String) : Prog α := do
  eprintln msg
  osExit 1

/-! ## The operating system -/

/-- Write `content` at `path`. -/
def World.setFile (w : World) (path : String) (content : Option Bytes) : World :=
  { w with files := fun q => if q = path then content else w.files q }

/-- `os.ReadFile`. -/
def osReadFile (env : Env) (path : String) : Prog (Option Bytes) := do
  emit (.readFile path)
  let w ← getWorld
  if env.readDenied path then return none else return w.files path

/-- `os.Open`: a handle at offset 0 when the file exists and may be read. -/
def osOpen (env : Env) (path : String) : Prog (Option File) := do
  emit (.osOpen path)
  let w ← getWorld
  match w.files path with
  | none => return none
  | some _ => if env.readDenied path then return none else return some ⟨path, 0⟩

/-- `os.OpenFile(path, O_RDWR|O_CREATE|O_TRUNC, 0600)`: on success the file exists and is empty. -/
def osOpenFile (env : Env) (path : String) : Prog (Option File) := do
  emit (.openFile path)
  if env.writeDenied path then return none
  else
    let w ← getWorld
    setWorld (w.setFile path (some []))
    return some ⟨path, 0⟩

/-- The first loop of `basename` in package `os`, on the path read from its end:
trailing slashes are removed as long as more than one character is left. -/
def dropTrailingSlashes : List Char → List Char
  | c :: d :: rev => if c = '/' then dropTrailingSlashes (d :: rev) else c :: d :: rev
  | rev => rev

/-- What `FileInfo.Name()` reports for a file opened on `path`, `basename` of
package `os`: trailing slashes are removed, then the leading directories (the
search for a slash starts before the last character left). -/
def baseName (path : String) : String :=
  match dropTrailingSlashes path.data.reverse with
  | [] => ""
  | c :: rev => ⟨(c :: rev.takeWhile (fun x => x != '/')).reverse⟩

/-- `file.Stat()`: base name and size of the file behind the handle. -/
def fileStat (env : Env) (f : File) : Prog (Option FileInfo) := do
  emit (.stat f.name)
  let w ← getWorld
  match w.files f.name with
  | none => return none
  | some content =>
    if env.statFails f.name then return none
    else return some ⟨baseName f.name, content.length⟩

/-- `file.Read(buf)` with `len(buf) = n`: the bytes delivered, the handle moved on,
and whether the read reported `io.EOF` (only a read into a non-empty buffer at the
end of the file does). -/
def fileRead (f : File) (n : Nat) : Prog (File × Bytes × Bool) := do
  let w ← getWorld
  let rest := ((w.files f.name).getD []).drop f.offset
  let data := rest.take n
  emit (.read f.name data.length)
  return (⟨f.name, f.offset + data.length⟩, data, decide (0 < n) && rest.isEmpty)

/-- `file.Close()`. -/
def fileClose (f : File) : Prog Unit := emit (.close f.name)

/-- `os.Remove`: succeeds when the file exists and may be removed. -/
def osRemove (env : Env) (path : String) : Prog Bool := do
  emit (.remove path)
  let w ← getWorld
  match w.files path with
  | none => return false
  | some _ =>
    if env.removeDenied path then return false
    else
      setWorld (w.setFile path none)
      return true

/-! ## `path/filepath` and `strings` -/

/-- `os.IsPathSeparator` (on Unix). -/
def IsPathSeparator (c : Char) : Bool := c == '/'

/-- The loop of `filepath.Ext`, walking `path` from its end: `rev` is what is left
to visit (last character first), `acc` what was visited already. -/
def extLoop : List Char → List Char → List Char
  | [], _ => []
  | c :: rev, acc =>
    if IsPathSeparator c then []
    else if c = '.' then c :: acc
    else extLoop rev (c :: acc)

/-- `filepath.Ext(path)`: the suffix beginning at the final dot in the final
element of `path`; empty if there is no dot. -/
def Ext (path : String) : String :=
  ⟨extLoop path.data.reverse []⟩

/-- `strings.HasSuffix`. -/
def HasSuffix (s suffix : String) : Bool :=
  decide (suffix.data.length ≤ s.data.length) &&
    decide (s.data.drop (s.data.length - suffix.data.length) = suffix.data)

/-- `strings.TrimSuffix`. -/
def TrimSuffix (s suffix : String) : String :=
  if HasSuffix s suffix then ⟨s.data.take (s.data.length - suffix.data.length)⟩ else s

/-! ## The token store and the authenticator -/

/-- The fixed path of the token cache (line 124). -/
def tokenFile : String := "token.json"

/-- `json.NewDecoder(f).Decode(tok)`: reads what is left of the file and decodes it. -/
def jsonDecode (env : Env) (f : File) : Prog (Option Token) := do
  let w ← getWorld
  let content := ((w.files f.name).getD []).drop f.offset
  emit (.read f.name content.length)
  return env.decode content

/-- `json.NewEncoder(f).Encode(token)`: marshals, then writes to the handle;
`true` when it reports no error.  A failed write leaves the file as it was opened. -/
def jsonEncode (env : Env) (f : File) (token : Token) : Prog Bool := do
  match env.encode token with
  | none => return false
  | some bytes =>
    emit (.write f.name)
    if env.writeFails f.name then return false
    else
      let w ← getWorld
      setWorld (w.setFile f.name (some bytes))
      return true

/-- `tokenFromFile` (lines 144-153): `none` stands for a non-nil error. -/
def tokenFromFile (env : Env) (file : String) : Prog (Option Token) := do
  match ← osOpen env file with
  | none => return none
  | some f =>
    let tok ← jsonDecode env f
    fileClose f
    return tok

/-- `getTokenFromWeb` (lines 155-169). -/
def getTokenFromWeb (env : Env) (config : Config) : Prog Token := do
  let authURL := env.authCodeURL config
  println ("Go to the following link in your browser then type the authorization code: \n"
    ++ authURL)
  emit .scan
  match env.authCode with
  | none => logFatalf "Unable to read authorization code"
  | some authCode =>
    emit (.exchange authCode)
    match env.exchange authCode with
    | none => logFatalf "Unable to retrieve token from web"
    | some tok => return tok

/-- `saveToken` (lines 171-179): the value `Encode` returns is dropped. -/
def saveToken (env : Env) (path : String) (token : Token) : Prog Unit := do
  println ("Saving credential file to: " ++ path)
  match ← osOpenFile env path with
  | none => logFatalf "Unable to cache oauth token"
  | some f =>
    let _ ← jsonEncode env f token
    fileClose f

/-- `getClient` (lines 122-142). -/
def getClient (env : Env) (config : Config) : Prog Client := do
  match ← tokenFromFile env tokenFile with
  | none =>
    let tok ← getTokenFromWeb env config
    saveToken env tokenFile tok
    return ⟨config, tok⟩
  | some tok =>
    if tok.Expiry < env.now then
      emit (.tokenRequest tok)
      match env.refresh tok with
      | none => logFatalf "Unable to refresh token"
      | some tok =>
        saveToken env tokenFile tok
        return ⟨config, tok⟩
    else
      return ⟨config, tok⟩

/-! ## The progress reporter and the upload call -/

/-- Modelled from the spec: package `pb` is not part of the repository; the
indicator is "sized to the file's total byte length" and starts at zero. -/
def barStart64 (total : Nat) : Prog Unit := fun w =>
  ⟨.returned (), { w with bar := some ⟨total, 0, false⟩ }, []⟩

/-- Modelled from the spec: package `pb` is not part of the repository; "every
read advances a visible indicator" by the number of bytes read. -/
def barAdd (n : Nat) : Prog Unit := fun w =>
  ⟨.returned (), { w with bar := w.bar.map (fun b => { b with current := b.current + n }) }, []⟩

/-- Modelled from the spec: package `pb` is not part of the repository; "a
finalize call that stops the indicator". -/
def barFinish : Prog Unit := fun w =>
  ⟨.returned (), { w with bar := w.bar.map (fun b => { b with finished := true }) }, []⟩

/-- Modelled from the spec: the proxy reader of package `pb` is not part of the
repository; it "exposes no behavior beyond pass-through reads", each read
advancing the indicator, and "must not alter the bytes it passes through". -/
def proxyRead (f : File) (n : Nat) : Prog (File × Bytes × Bool) := do
  let r ← fileRead f n
  barAdd r.2.1.length
  return r

/-- Modelled from the spec: the upload call of package `youtube` is not part of
the repository; the input file is "read to completion".  The call reads its media
reader with the buffer sizes `sizes` until a read reports the end of the file;
the result is what was read and whether the end was reached. -/
def drain (f : File) : List Nat → Bytes → Prog (Bytes × Bool)
  | [], acc => return (acc, false)
  | n :: sizes, acc => do
    let (f1, data, eof) ← proxyRead f n
    if eof then return (acc ++ data, true)
    else drain f1 sizes (acc ++ data)

/-- `call.Media(reader).Do()`: the media is read through the proxy reader; the
platform answers once all of it was taken, otherwise the call fails. -/
def videosInsertDo (env : Env) (parts : List String) (video : Video) (reader : File) :
    Prog (Option String) := do
  let (body, eof) ← drain reader env.readSizes []
  let id := if eof then env.remote video body else none
  emit (.insert parts video body id)
  return id

/-- `youtube.NewService(ctx, option.WithHTTPClient(client))`. -/
def youtubeNewService (env : Env) (client : Client) : Prog (Option Client) := do
  emit .newService
  if env.newServiceFails then return none else return some client

/-! ## `uploadVideo` and `main` -/

/-- `uploadVideo` (lines 48-120).  The deferred `file.Close()` runs when the
function returns, that is after `os.Remove`; it does not run when `log.Fatalf`
ends the process. -/
def uploadVideo (env : Env) (videoPath : String) : Prog Unit := do
  match ← osReadFile env "credentials.json" with
  | none => logFatalf "Unable to read client secret file"
  | some b =>
  match env.configFromJSON b with
  | none => logFatalf "Unable to parse client secret file to config"
  | some config =>
  let client ← getClient env config
  match ← youtubeNewService env client with
  | none => logFatalf "Error creating YouTube client"
  | some _service =>
  match ← osOpen env videoPath with
  | none => logFatalf "Error opening video file"
  | some file =>
  match ← fileStat env file with
  | none => logFatalf "Unable to get file info"
  | some fileInfo =>
  let fileName := fileInfo.Name
  let videoTitle := TrimSuffix fileName (Ext fileName)
  let video : Video :=
    { Snippet := { Title := videoTitle, Description := "", Tags := [], CategoryId := "22" },
      Status := { PrivacyStatus := "private" } }
  println ("Uploading " ++ videoTitle)
  barStart64 fileInfo.Size
  match ← videosInsertDo env ["snippet", "status"] video file with
  | none => logFatalf "Error making YouTube API call"
  | some id =>
  barFinish
  println ("Upload successful! Video ID: " ++ id)
  let removed ← osRemove env videoPath
  if !removed then logFatalf "Error removing video"
  fileClose file

/-- `flag.ErrorHandling`. -/
inductive ErrorHandling where
  | ContinueOnError
  | ExitOnError
  | PanicOnError
deriving DecidableEq, Repr

/-- The errors of `FlagSet.Parse`. -/
inductive FlagError where
  /-- `flag.ErrHelp`: `-h` or `-help` on a set that does not define it. -/
  | help
  /-- "bad flag syntax", with the argument. -/
  | badSyntax (arg : String)
  /-- "flag provided but not defined", with the name of the flag. -/
  | notDefined (name : String)
deriving DecidableEq, Repr

/-- What the flag set writes to its output (standard error) for an error: the
error line, except for `flag.ErrHelp`, and then the usage of the set, which has
the name "upload" and no flag to list. -/
def FlagError.output : FlagError → List String
  | .help => ["Usage of upload:"]
  | .badSyntax arg => ["bad flag syntax: " ++ arg, "Usage of upload:"]
  | .notDefined name => ["flag provided but not defined: -" ++ name, "Usage of upload:"]

/-- `FlagSet.parseOne` of package `flag` on a set without any defined flag: the
error, if any, and the arguments left.  No flag being defined, it never reports a
flag as seen, so `Parse` calls it once. -/
def parseOne (args : List String) : Option FlagError × List String :=
  match args with
  | [] => (none, [])
  | s :: rest =>
    match s.data with
    | '-' :: c :: cs =>
      if c = '-' ∧ cs = [] then (none, rest)
      else
        let name := if c = '-' then cs else c :: cs
        match name with
        | [] => (some (.badSyntax s), s :: rest)
        | n0 :: ns =>
          if n0 = '-' ∨ n0 = '=' then (some (.badSyntax s), s :: rest)
          else if n0 :: ns.takeWhile (fun x => x != '=') = ['h', 'e', 'l', 'p'] ∨
              n0 :: ns.takeWhile (fun x => x != '=') = ['h'] then (some .help, rest)
          else (some (.notDefined ⟨n0 :: ns.takeWhile (fun x => x != '=')⟩), rest)
    | _ => (none, s :: rest)

/-- `FlagSet.Parse` on a set without any defined flag.  An error is reported on
standard error (the error line, then the usage); under `ExitOnError` the process
then exits, with 0 for `flag.ErrHelp` and 2 otherwise (Go 1.15 and later). -/
def FlagSet.Parse (handling : ErrorHandling) (arguments : List String) :
    Prog (Option FlagError × List String) := do
  match parseOne arguments with
  | (none, args) => return (none, args)
  | (some err, args) =>
    eprintlns err.output
    match handling with
    | .ContinueOnError => return (some err, args)
    | .ExitOnError => if err = .help then osExit 0 else osExit 2
    | .PanicOnError => osExit 2

/-- `main` (lines 22-46) on the argument vector `os.Args`. -/
def main (env : Env) (osArgs : List String) : Prog Unit := do
  if osArgs.length < 2 then
    println "Expected 'upload' subcommand"
    osExit 1
  else if osArgs.getD 1 "" = "upload" then
    let (err, args) ← FlagSet.Parse .ExitOnError (osArgs.drop 2)
    if err.isSome then
      println "Failed to parse upload command"
      osExit 1
    else if args.length ≠ 1 then
      println "You must provide a video file"
      osExit 1
    else
      let videoPath := args.getD 0 ""
      uploadVideo env videoPath
  else
    println "Expected 'upload' subcommand"
    osExit 1

/-! ## Sample surroundings

Concrete worlds and surroundings on which the statements below are evaluated. -/

/-- A cached token that expires at instant 2000. -/
def demoToken : Token := ⟨"ya29.a0", some "1//0g", 2000⟩

/-- The token the token source hands out on a refresh. -/
def freshToken : Token := ⟨"ya29.b1", some "1//0g", 9000⟩

/-- The content of a token file holding `demoToken`. -/
def demoJSON : Bytes := [123, 34, 97, 34, 125]

/-- The content of a token file holding `freshToken`. -/
def freshJSON : Bytes := [123, 34, 98, 34, 125]

/-- The client configuration read from the credentials file. -/
def demoConfig : Config := ⟨"id", "secret", "https://auth", "https://token"⟩

/-- Surroundings in which nothing fails, at instant 1000. -/
def demoEnv : Env where
  now := 1000
  readDenied := fun _ => false
  writeDenied := fun _ => false
  writeFails := fun _ => false
  statFails := fun _ => false
  removeDenied := fun _ => false
  encode := fun t =>
    if t = demoToken then some demoJSON else if t = freshToken then some freshJSON else none
  decode := fun b =>
    if b = demoJSON then some demoToken else if b = freshJSON then some freshToken else none
  configFromJSON := fun _ => some demoConfig
  newServiceFails := false
  authCodeURL := fun c => c.AuthURL
  authCode := some "4/0A"
  exchange := fun _ => some freshToken
  refresh := fun _ => some freshToken
  readSizes := [4, 4, 4]
  remote := fun _ _ => some "vid42"

/-- The same surroundings at instant 3000, after `demoToken` has expired. -/
def lateEnv : Env := { demoEnv with now := 3000 }

/-- The same surroundings on a full disk: files open, writes fail. -/
def fullDiskEnv : Env := { demoEnv with writeFails := fun _ => true }

/-- The full disk at instant 3000, after `demoToken` has expired. -/
def lateFullDiskEnv : Env := { lateEnv with writeFails := fun _ => true }

/-- The same surroundings where the video may not be removed. -/
def lockedEnv : Env := { demoEnv with removeDenied := fun p => p = "videos/clip.mp4" }

/-- A world with credentials, a cached token and a six-byte video. -/
def demoWorld : World where
  files := fun p =>
    if p = "credentials.json" then some [123, 125]
    else if p = "token.json" then some demoJSON
    else if p = "videos/clip.mp4" then some [10, 20, 30, 40, 50, 60]
    else none
  stdout := []
  stderr := []
  bar := none

/-- The same world without a token cache. -/
def bareWorld : World :=
  { demoWorld with files := fun p => if p = "token.json" then none else demoWorld.files p }

/-! ## Auxiliary definitions for the proofs -/

/-- The first half of `uploadVideo`, up to the YouTube service (lines 49-70). -/
def authPhase (env : Env) : Prog Client := do
  match ← osReadFile env "credentials.json" with
  | none => logFatalf "Unable to read client secret file"
  | some b =>
  match env.configFromJSON b with
  | none => logFatalf "Unable to parse client secret file to config"
  | some config =>
  let client ← getClient env config
  match ← youtubeNewService env client with
  | none => logFatalf "Error creating YouTube client"
  | some service => return service

/-- The second half of `uploadVideo`, from the opening of the video (lines 72-120). -/
def sendPhase (env : Env) (videoPath : String) : Prog Unit := do
  match ← osOpen env videoPath with
  | none => logFatalf "Error opening video file"
  | some file =>
  match ← fileStat env file with
  | none => logFatalf "Unable to get file info"
  | some fileInfo =>
  let fileName := fileInfo.Name
  let videoTitle := TrimSuffix fileName (Ext fileName)
  let video : Video :=
    { Snippet := { Title := videoTitle, Description := "", Tags := [], CategoryId := "22" },
      Status := { PrivacyStatus := "private" } }
  println ("Uploading " ++ videoTitle)
  barStart64 fileInfo.Size
  match ← videosInsertDo env ["snippet", "status"] video file with
  | none => logFatalf "Error making YouTube API call"
  | some id =>
  barFinish
  println ("Upload successful! Video ID: " ++ id)
  let removed ← osRemove env videoPath
  if !removed then logFatalf "Error removing video"
  fileClose file

/-- What the reads of `drain` with the buffer sizes `sizes` deliver from the rest
of a file: the bytes, whether the end was reported, and the length of each read. -/
def chunks (rest : Bytes) : List Nat → Bytes × Bool × List Nat
  | [] => ([], false, [])
  | n :: sizes =>
    if decide (0 < n) && rest.isEmpty then (rest.take n, true, [(rest.take n).length])
    else
      ((rest.take n) ++ (chunks (rest.drop (rest.take n).length) sizes).1,
        (chunks (rest.drop (rest.take n).length) sizes).2.1,
        (rest.take n).length :: (chunks (rest.drop (rest.take n).length) sizes).2.2)

/-- The world after the indicator advanced by `n`. -/
def World.addBar (w : World) (n : Nat) : World :=
  { w with bar := w.bar.map (fun b => { b with current := b.current + n }) }

/-- Some insert call among the events reported success. -/
def insertSucceeded (evs : List Event) : Bool :=
  evs.any (fun e => match e with
    | .insert _ _ _ (some _) => true
    | _ => false)

/-- The video resource `uploadVideo` builds for a file name (lines 86-97). -/
def videoFor (fileName : String) : Video :=
  { Snippet := { Title := TrimSuffix fileName (Ext fileName), Description := "", Tags := [],
                 CategoryId := "22" },
    Status := { PrivacyStatus := "private" } }

/-- The calls the authentication half of `uploadVideo` can make: none of them is
a `Stat`, a removal or an insert call. -/
def Event.isAuth : Event → Bool
  | .stat _ => false
  | .remove _ => false
  | .insert _ _ _ _ => false
  | _ => true

/-- What the token store may do to the file system between two worlds: only
`token.json` changes, and no file disappears. -/
def FilesKept (w w1 : World) : Prop :=
  ∀ q, (q ≠ tokenFile → w1.files q = w.files q) ∧ ((w.files q).isSome → (w1.files q).isSome)

/-! # Properties -/

theorem extLoop_spec (rev : List Char) : ∀ acc : List Char,
    (∀ c ∈ rev, IsPathSeparator c = false) →
    ('.' ∉ rev → extLoop rev acc = []) ∧
    ('.' ∈ rev → ∃ a b, rev = a ++ '.' :: b ∧ '.' ∉ a ∧
        extLoop rev acc = '.' :: (a.reverse ++ acc)) := by
  induction rev with
  | nil => intro acc _; simp [extLoop]
  | cons c rev ih =>
    intro acc hsep
    have hc : IsPathSeparator c = false := hsep c (List.mem_cons_self _ _)
    have hrev : ∀ d ∈ rev, IsPathSeparator d = false :=
      fun d hd => hsep d (List.mem_cons_of_mem _ hd)
    by_cases hdot : c = '.'
    · subst hdot
      refine ⟨fun h => absurd (List.mem_cons_self _ _) h, fun _ => ⟨[], rev, ?_, ?_, ?_⟩⟩
      · simp
      · simp
      · simp [extLoop, hc]
    · obtain ⟨ih1, ih2⟩ := ih (c :: acc) hrev
      constructor
      · intro h
        have h1 : '.' ∉ rev := fun hm => h (List.mem_cons_of_mem _ hm)
        simp [extLoop, hc, hdot, ih1 h1]
      · intro h
        have h1 : '.' ∈ rev := by
          rcases List.mem_cons.mp h with h | h
          · exact absurd h.symm hdot
          · exact h
        obtain ⟨a, b, hab, ha, hext⟩ := ih2 h1
        refine ⟨c :: a, b, by simp [hab], ?_, ?_⟩
        · intro hm
          rcases List.mem_cons.mp hm with h | h
          · exact hdot h.symm
          · exact ha h
        · simp [extLoop, hc, hdot, hext]

theorem Ext_of_no_dot (n : String) (hsep : ∀ c ∈ n.data, IsPathSeparator c = false)
    (h : '.' ∉ n.data) : Ext n = ⟨[]⟩ := by
  have := (extLoop_spec n.data.reverse [] (by simpa using hsep)).1 (by simpa using h)
  simp [Ext, this]

theorem Ext_of_dot (n : String) (hsep : ∀ c ∈ n.data, IsPathSeparator c = false)
    (h : '.' ∈ n.data) :
    ∃ pre suf, n.data = pre ++ '.' :: suf ∧ '.' ∉ suf ∧ (Ext n).data = '.' :: suf := by
  obtain ⟨a, b, hab, ha, hext⟩ :=
    (extLoop_spec n.data.reverse [] (by simpa using hsep)).2 (by simpa using h)
  refine ⟨b.reverse, a.reverse, ?_, by simpa using ha, ?_⟩
  · have := congrArg List.reverse hab
    simpa using this
  · simp [Ext, hext]

theorem TrimSuffix_empty (n : String) : TrimSuffix n ⟨[]⟩ = n := by
  apply String.ext
  simp [TrimSuffix, HasSuffix]

theorem TrimSuffix_append (pre suf : List Char) :
    TrimSuffix ⟨pre ++ suf⟩ ⟨suf⟩ = ⟨pre⟩ := by
  simp [TrimSuffix, HasSuffix]


/-- C2: for every file base name `n` without a path separator, the title
`strings.TrimSuffix(n, filepath.Ext(n))` is `n` itself when `n` holds no dot, and
otherwise `n` without the suffix that starts at its last dot; the title followed
by the extension is `n` again; "clip.mp4" gives "clip", "my.video.mov" gives
"my.video" and "noext" gives "noext". -/
theorem videoTitle_trims_extension (n : String)
    (hsep : ∀ c ∈ n.data, IsPathSeparator c = false) :
    ('.' ∉ n.data → TrimSuffix n (Ext n) = n) ∧
    ('.' ∈ n.data → ∃ pre suf, n.data = pre ++ '.' :: suf ∧ '.' ∉ suf ∧
        TrimSuffix n (Ext n) = ⟨pre⟩ ∧ Ext n = ⟨'.' :: suf⟩) ∧
    TrimSuffix n (Ext n) ++ Ext n = n ∧
    TrimSuffix "clip.mp4" (Ext "clip.mp4") = "clip" ∧
    TrimSuffix "my.video.mov" (Ext "my.video.mov") = "my.video" ∧
    TrimSuffix "noext" (Ext "noext") = "noext" := by
  have hno : '.' ∉ n.data → TrimSuffix n (Ext n) = n ∧ Ext n = ⟨[]⟩ := by
    intro h
    have he := Ext_of_no_dot n hsep h
    refine ⟨?_, he⟩
    rw [he]
    exact TrimSuffix_empty n
  have hyes : '.' ∈ n.data → ∃ pre suf, n.data = pre ++ '.' :: suf ∧ '.' ∉ suf ∧
        TrimSuffix n (Ext n) = ⟨pre⟩ ∧ Ext n = ⟨'.' :: suf⟩ := by
    intro h
    obtain ⟨pre, suf, hn, hsuf, he⟩ := Ext_of_dot n hsep h
    refine ⟨pre, suf, hn, hsuf, ?_, ?_⟩
    · have h1 : n = ⟨pre ++ '.' :: suf⟩ := by rw [← hn]
      have h2 : Ext n = ⟨'.' :: suf⟩ := by rw [← he]
      rw [h2]
      conv_lhs => rw [h1]
      exact TrimSuffix_append pre ('.' :: suf)
    · rw [← he]
  refine ⟨fun h => (hno h).1, hyes, ?_, by decide, by decide, by decide⟩
  by_cases h : '.' ∈ n.data
  · obtain ⟨pre, suf, hn, _, ht, he⟩ := hyes h
    rw [ht, he]
    apply String.ext
    simp [hn]
  · obtain ⟨ht, he⟩ := hno h
    rw [ht, he]
    apply String.ext
    simp

theorem videoTitle_trims_extension_witness :
    (∀ c ∈ "my.video.mov".data, IsPathSeparator c = false) ∧
    TrimSuffix "my.video.mov" (Ext "my.video.mov") ++ Ext "my.video.mov" = "my.video.mov" :=
  ⟨by decide, (videoTitle_trims_extension "my.video.mov" (by decide)).2.2.1⟩

@[simp] theorem run_pure {α : Type} (a : α) (w : World) :
    (pure a : Prog α) w = ⟨.returned a, w, []⟩ := rfl

@[simp] theorem run_bind {α β : Type} (m : Prog α) (f : α → Prog β) (w : World) :
    (m >>= f) w = (match (m w).status with
      | .returned a =>
        ⟨(f a (m w).world).status, (f a (m w).world).world, (m w).events ++ (f a (m w).world).events⟩
      | .exited c => ⟨.exited c, (m w).world, (m w).events⟩) := rfl

@[simp] theorem run_ite {α : Type} (c : Prop) [Decidable c] (m1 m2 : Prog α) (w : World) :
    (if c then m1 else m2) w = if c then m1 w else m2 w := by
  split <;> rfl

@[simp] theorem run_emit (e : Event) (w : World) : emit e w = ⟨.returned (), w, [e]⟩ := rfl
@[simp] theorem run_getWorld (w : World) : getWorld w = ⟨.returned w, w, []⟩ := rfl
@[simp] theorem run_setWorld (w1 w : World) : setWorld w1 w = ⟨.returned (), w1, []⟩ := rfl
@[simp] theorem run_osExit {α : Type} (c : Nat) (w : World) :
    (osExit c : Prog α) w = ⟨.exited c, w, []⟩ := rfl
@[simp] theorem run_println (s : String) (w : World) :
    println s w = ⟨.returned (), { w with stdout := w.stdout ++ [s] }, []⟩ := rfl
@[simp] theorem run_eprintln (s : String) (w : World) :
    eprintln s w = ⟨.returned (), { w with stderr := w.stderr ++ [s] }, []⟩ := rfl
@[simp] theorem run_logFatalf {α : Type} (s : String) (w : World) :
    (logFatalf s : Prog α) w = ⟨.exited 1, { w with stderr := w.stderr ++ [s] }, []⟩ := rfl

theorem tokenFromFile_run (env : Env) (file : String) (w : World) :
    tokenFromFile env file w =
      match w.files file with
      | none => ⟨.returned none, w, [.osOpen file]⟩
      | some b =>
        if env.readDenied file then ⟨.returned none, w, [.osOpen file]⟩
        else ⟨.returned (env.decode b), w, [.osOpen file, .read file b.length, .close file]⟩ := by
  cases h : w.files file with
  | none => simp [tokenFromFile, osOpen, jsonDecode, fileClose, h]
  | some b =>
    by_cases h2 : env.readDenied file = true <;>
      simp [tokenFromFile, osOpen, jsonDecode, fileClose, h, h2]

theorem saveToken_run (env : Env) (path : String) (token : Token) (w : World) :
    saveToken env path token w =
      if env.writeDenied path then
        ⟨.exited 1, { w with stdout := w.stdout ++ ["Saving credential file to: " ++ path],
                             stderr := w.stderr ++ ["Unable to cache oauth token"] },
          [.openFile path]⟩
      else
        match env.encode token with
        | none =>
          ⟨.returned (), World.setFile { w with stdout := w.stdout ++ ["Saving credential file to: " ++ path] } path (some []),
            [.openFile path, .close path]⟩
        | some b =>
          if env.writeFails path then
            ⟨.returned (), World.setFile { w with stdout := w.stdout ++ ["Saving credential file to: " ++ path] } path (some []),
              [.openFile path, .write path, .close path]⟩
          else
            ⟨.returned (), World.setFile (World.setFile { w with stdout := w.stdout ++ ["Saving credential file to: " ++ path] } path (some [])) path (some b),
              [.openFile path, .write path, .close path]⟩ := by
  by_cases h1 : env.writeDenied path = true
  · simp [saveToken, osOpenFile, jsonEncode, fileClose, h1]
  · cases h2 : env.encode token
    · simp [saveToken, osOpenFile, jsonEncode, fileClose, h1, h2]
    · by_cases h3 : env.writeFails path = true <;>
        simp [saveToken, osOpenFile, jsonEncode, fileClose, h1, h2, h3]

/-- C6 (the code at the failing input): on a full disk `token.json` opens for
writing and the write of the encoder fails; `saveToken` drops the error that
`Encode` returns, closes the file and returns normally, nothing is reported on
standard error, and the token file is left empty. -/
theorem saveToken_returns_after_failed_write :
    fullDiskEnv.writeDenied "token.json" = false ∧
    fullDiskEnv.writeFails "token.json" = true ∧
    (saveToken fullDiskEnv "token.json" freshToken demoWorld).status = .returned () ∧
    (saveToken fullDiskEnv "token.json" freshToken demoWorld).events =
      [.openFile "token.json", .write "token.json", .close "token.json"] ∧
    (saveToken fullDiskEnv "token.json" freshToken demoWorld).world.stderr = [] ∧
    (saveToken fullDiskEnv "token.json" freshToken demoWorld).world.files "token.json" = some [] := by
  decide

/-- C5 (the code at the failing input): on a full disk `saveToken` completes
although the write failed, and `tokenFromFile` on the same path then returns an
error instead of the token, for a token that the codec encodes and decodes
faithfully. -/
theorem tokenFromFile_after_failed_save :
    (saveToken fullDiskEnv "token.json" freshToken demoWorld).status = .returned () ∧
    (tokenFromFile fullDiskEnv "token.json"
      (saveToken fullDiskEnv "token.json" freshToken demoWorld).world).status = .returned none ∧
    fullDiskEnv.decode freshJSON = some freshToken ∧
    fullDiskEnv.encode freshToken = some freshJSON := by
  decide

/-- The round trip of the token store when the write succeeds: a token the codec
encodes and decodes faithfully is read back from the path it was saved to. -/
theorem saveToken_then_load (env : Env) (path : String) (token : Token) (w : World) (b : Bytes)
    (hopen : env.writeDenied path = false) (henc : env.encode token = some b)
    (hwrite : env.writeFails path = false) (hread : env.readDenied path = false)
    (hdec : env.decode b = some token) :
    (saveToken env path token w).status = .returned () ∧
    (tokenFromFile env path (saveToken env path token w).world).status = .returned (some token) := by
  simp [saveToken_run, tokenFromFile_run, hopen, henc, hwrite, hread, hdec, World.setFile]

/-- The world once the authorization prompt was printed. -/
theorem getTokenFromWeb_run (env : Env) (config : Config) (w : World) :
    getTokenFromWeb env config w =
      match env.authCode with
      | none =>
        ⟨.exited 1,
          { w with
            stdout := w.stdout ++
              ["Go to the following link in your browser then type the authorization code: \n"
                ++ env.authCodeURL config],
            stderr := w.stderr ++ ["Unable to read authorization code"] },
          [.scan]⟩
      | some code =>
        match env.exchange code with
        | none =>
          ⟨.exited 1,
            { w with
              stdout := w.stdout ++
                ["Go to the following link in your browser then type the authorization code: \n"
                  ++ env.authCodeURL config],
              stderr := w.stderr ++ ["Unable to retrieve token from web"] },
            [.scan, .exchange code]⟩
        | some tok =>
          ⟨.returned tok,
            { w with
              stdout := w.stdout ++
                ["Go to the following link in your browser then type the authorization code: \n"
                  ++ env.authCodeURL config] },
            [.scan, .exchange code]⟩ := by
  cases h1 : env.authCode with
  | none => simp [getTokenFromWeb, h1]
  | some code =>
    cases h2 : env.exchange code <;> simp [getTokenFromWeb, h1, h2]

theorem getClient_of_load (env : Env) (config : Config) (w : World) :
    getClient env config w =
      match (tokenFromFile env tokenFile w).status with
      | .exited c => ⟨.exited c, w, (tokenFromFile env tokenFile w).events⟩
      | .returned none =>
        (match (getTokenFromWeb env config w).status with
         | .exited c =>
           ⟨.exited c, (getTokenFromWeb env config w).world,
             (tokenFromFile env tokenFile w).events ++ (getTokenFromWeb env config w).events⟩
         | .returned tok =>
           (match (saveToken env tokenFile tok (getTokenFromWeb env config w).world).status with
            | .exited c =>
              ⟨.exited c, (saveToken env tokenFile tok (getTokenFromWeb env config w).world).world,
                (tokenFromFile env tokenFile w).events ++ ((getTokenFromWeb env config w).events ++
                  (saveToken env tokenFile tok (getTokenFromWeb env config w).world).events)⟩
            | .returned _ =>
              ⟨.returned ⟨config, tok⟩,
                (saveToken env tokenFile tok (getTokenFromWeb env config w).world).world,
                (tokenFromFile env tokenFile w).events ++ ((getTokenFromWeb env config w).events ++
                  (saveToken env tokenFile tok (getTokenFromWeb env config w).world).events)⟩))
      | .returned (some tok) =>
        if tok.Expiry < env.now then
          match env.refresh tok with
          | none =>
            ⟨.exited 1, { w with stderr := w.stderr ++ ["Unable to refresh token"] },
              (tokenFromFile env tokenFile w).events ++ [.tokenRequest tok]⟩
          | some t =>
            (match (saveToken env tokenFile t w).status with
             | .exited c =>
               ⟨.exited c, (saveToken env tokenFile t w).world,
                 (tokenFromFile env tokenFile w).events ++
                   (.tokenRequest tok :: (saveToken env tokenFile t w).events)⟩
             | .returned _ =>
               ⟨.returned ⟨config, t⟩, (saveToken env tokenFile t w).world,
                 (tokenFromFile env tokenFile w).events ++
                   (.tokenRequest tok :: (saveToken env tokenFile t w).events)⟩)
        else ⟨.returned ⟨config, tok⟩, w, (tokenFromFile env tokenFile w).events⟩ := by
  have hw : (tokenFromFile env tokenFile w).world = w := by
    rw [tokenFromFile_run]; split <;> [rfl; (split <;> rfl)]
  unfold getClient
  simp only [run_bind]
  cases h : (tokenFromFile env tokenFile w).status with
  | exited c => simp [hw]
  | returned r =>
    cases r with
    | none =>
      simp only [hw, run_bind]
      cases h1 : (getTokenFromWeb env config w).status with
      | exited c => simp
      | returned tok =>
        simp only [run_bind]
        cases h2 : (saveToken env tokenFile tok (getTokenFromWeb env config w).world).status <;>
          simp
    | some tok =>
      simp only [hw]
      by_cases hexp : tok.Expiry < env.now
      · simp only [hexp, if_true, run_ite, run_bind, run_emit]
        cases h3 : env.refresh tok with
        | none => simp
        | some t =>
          simp only [run_bind]
          cases h4 : (saveToken env tokenFile t w).status <;> simp
      · simp [hexp]

theorem tokenFromFile_world (env : Env) (file : String) (w : World) :
    (tokenFromFile env file w).world = w := by
  rw [tokenFromFile_run]; split <;> [rfl; (split <;> rfl)]

theorem tokenFromFile_events_of_some (env : Env) (file : String) (w : World) (tok : Token)
    (h : (tokenFromFile env file w).status = .returned (some tok)) :
    ∃ n, (tokenFromFile env file w).events = [.osOpen file, .read file n, .close file] := by
  rw [tokenFromFile_run] at h ⊢
  cases hf : w.files file with
  | none => simp [hf] at h
  | some b =>
    by_cases hd : env.readDenied file = true
    · simp [hf, hd] at h
    · exact ⟨b.length, by simp [hf, hd]⟩

/-- When the file opens, the token encodes and the write succeeds, `saveToken`
returns and the file holds the encoded token. -/
theorem saveToken_saved (env : Env) (path : String) (token : Token) (w : World) (b : Bytes)
    (hopen : env.writeDenied path = false) (henc : env.encode token = some b)
    (hwrite : env.writeFails path = false) :
    (saveToken env path token w).status = .returned () ∧
    (saveToken env path token w).world.files path = some b := by
  simp [saveToken_run, hopen, henc, hwrite, World.setFile]

/-- When the file opens and the write fails, `saveToken` still returns and the
file is left empty. -/
theorem saveToken_lost (env : Env) (path : String) (token : Token) (w : World)
    (hopen : env.writeDenied path = false) (hwrite : env.writeFails path = true) :
    (saveToken env path token w).status = .returned () ∧
    (saveToken env path token w).world.files path = some [] := by
  rw [saveToken_run]
  simp only [hopen, Bool.false_eq_true, if_false, hwrite, if_true]
  cases env.encode token <;> simp [World.setFile]

/-- The two branches of `getClient` on a cached token that loads.  With an expiry
strictly before the current time, `getClient` asks the token source for a token
right after the load and passes the token obtained to `saveToken`; a client
returned is built from that token, and `token.json` then holds its encoding
whenever the write succeeded.  With an expiry at or after the current time the
cached token is used as it is: the client is built from it, the only calls made
are those of the load (no token request, no opening of `token.json` for writing,
no write) and the world is unchanged. -/
theorem getClient_cached_token (env : Env) (config : Config) (w : World) (tok : Token)
    (hload : (tokenFromFile env tokenFile w).status = .returned (some tok)) :
    (tok.Expiry < env.now →
      ∃ n, (tokenFromFile env tokenFile w).events =
          [.osOpen tokenFile, .read tokenFile n, .close tokenFile] ∧
        (env.refresh tok = none →
          (getClient env config w).status = .exited 1 ∧
          (getClient env config w).events =
            [.osOpen tokenFile, .read tokenFile n, .close tokenFile, .tokenRequest tok]) ∧
        (∀ t, env.refresh tok = some t →
          (getClient env config w).events =
            [.osOpen tokenFile, .read tokenFile n, .close tokenFile, .tokenRequest tok] ++
              (saveToken env tokenFile t w).events ∧
          (getClient env config w).world = (saveToken env tokenFile t w).world ∧
          ((saveToken env tokenFile t w).status = .returned () →
            (getClient env config w).status = .returned ⟨config, t⟩) ∧
          (∀ c, (saveToken env tokenFile t w).status = .exited c →
            (getClient env config w).status = .exited c) ∧
          (∀ b, env.writeDenied tokenFile = false → env.encode t = some b →
            env.writeFails tokenFile = false →
            (getClient env config w).status = .returned ⟨config, t⟩ ∧
            (getClient env config w).world.files tokenFile = some b))) ∧
    (¬ tok.Expiry < env.now →
      (getClient env config w).status = .returned ⟨config, tok⟩ ∧
      (getClient env config w).world = w ∧
      ∃ n, (getClient env config w).events =
        [.osOpen tokenFile, .read tokenFile n, .close tokenFile]) := by
  obtain ⟨n, hn⟩ := tokenFromFile_events_of_some env tokenFile w tok hload
  constructor
  · intro hexp
    refine ⟨n, hn, ?_, ?_⟩
    · intro hr
      rw [getClient_of_load]
      simp [hload, hexp, hr, hn]
    · intro t hr
      have hg : (getClient env config w).world = (saveToken env tokenFile t w).world ∧
          ((saveToken env tokenFile t w).status = .returned () →
            (getClient env config w).status = .returned ⟨config, t⟩) := by
        rw [getClient_of_load]
        simp only [hload, hexp, if_true, hr, hn]
        cases hs : (saveToken env tokenFile t w).status <;> simp
      refine ⟨?_, hg.1, hg.2, ?_, ?_⟩
      · rw [getClient_of_load]
        simp only [hload, hexp, if_true, hr, hn]
        cases hs : (saveToken env tokenFile t w).status <;> simp
      · rw [getClient_of_load]
        simp only [hload, hexp, if_true, hr, hn]
        cases hs : (saveToken env tokenFile t w).status <;> simp
      · intro b hopen henc hwrite
        obtain ⟨h1, h2⟩ := saveToken_saved env tokenFile t w b hopen henc hwrite
        exact ⟨hg.2 h1, by rw [hg.1]; exact h2⟩
  · intro hexp
    rw [getClient_of_load]
    simp only [hload, hexp, if_false, hn]
    exact ⟨trivial, trivial, n, rfl⟩

theorem getClient_cached_token_witness :
    (tokenFromFile lateEnv tokenFile demoWorld).status = .returned (some demoToken) ∧
    demoToken.Expiry < lateEnv.now ∧
    lateEnv.refresh demoToken = some freshToken ∧
    (getClient lateEnv demoConfig demoWorld).events =
      [.osOpen tokenFile, .read tokenFile 5, .close tokenFile, .tokenRequest demoToken,
        .openFile tokenFile, .write tokenFile, .close tokenFile] ∧
    (getClient lateEnv demoConfig demoWorld).status = .returned ⟨demoConfig, freshToken⟩ ∧
    (tokenFromFile demoEnv tokenFile demoWorld).status = .returned (some demoToken) ∧
    ¬ demoToken.Expiry < demoEnv.now ∧
    (getClient demoEnv demoConfig demoWorld).status = .returned ⟨demoConfig, demoToken⟩ := by
  have h1 := getClient_cached_token lateEnv demoConfig demoWorld demoToken (by decide)
  have h2 := getClient_cached_token demoEnv demoConfig demoWorld demoToken (by decide)
  refine ⟨by decide, by decide, by decide, by decide, ?_, by decide, by decide, ?_⟩
  · obtain ⟨n, _, _, h⟩ := h1.1 (by decide)
    exact (h freshToken (by decide)).2.2.1 (by decide)
  · exact (h2.2 (by decide)).1

/-- The branch of `getClient` without a cached token.  Whenever `tokenFromFile`
fails on `token.json` (the file is missing, it cannot be opened, or its content
does not decode), it returns its error without ending the process, and
`getClient` goes on with the interactive flow `getTokenFromWeb`; the token that
flow obtains is passed to `saveToken` and, when `saveToken` returns, the client is
built from that token; `token.json` then holds its encoding whenever the write
succeeded.  The process ends in `getClient` only where the flow or `saveToken`
ends it. -/
theorem getClient_without_cache (env : Env) (config : Config) (w : World)
    (hfail : w.files tokenFile = none ∨ env.readDenied tokenFile = true ∨
      ∃ b, w.files tokenFile = some b ∧ env.decode b = none) :
    (tokenFromFile env tokenFile w).status = .returned none ∧
    (∃ rest, (getClient env config w).events =
      (tokenFromFile env tokenFile w).events ++ .scan :: rest) ∧
    (∀ c, (getTokenFromWeb env config w).status = .exited c →
      (getClient env config w).status = .exited c) ∧
    (∀ tok, (getTokenFromWeb env config w).status = .returned tok →
      (getClient env config w).events =
        (tokenFromFile env tokenFile w).events ++ ((getTokenFromWeb env config w).events ++
          (saveToken env tokenFile tok (getTokenFromWeb env config w).world).events) ∧
      (getClient env config w).world =
        (saveToken env tokenFile tok (getTokenFromWeb env config w).world).world ∧
      ((saveToken env tokenFile tok (getTokenFromWeb env config w).world).status = .returned () →
        (getClient env config w).status = .returned ⟨config, tok⟩) ∧
      (∀ c, (saveToken env tokenFile tok (getTokenFromWeb env config w).world).status = .exited c →
        (getClient env config w).status = .exited c) ∧
      (∀ b, env.writeDenied tokenFile = false → env.encode tok = some b →
        env.writeFails tokenFile = false →
        (getClient env config w).status = .returned ⟨config, tok⟩ ∧
        (getClient env config w).world.files tokenFile = some b)) := by
  have hload : (tokenFromFile env tokenFile w).status = .returned none := by
    rw [tokenFromFile_run]
    rcases hfail with h | h | ⟨b, h, hd⟩
    · simp [h]
    · cases hf : w.files tokenFile <;> simp [h]
    · by_cases hr : env.readDenied tokenFile = true <;> simp [h, hd, hr]
  have hscan : ∃ rest, (getTokenFromWeb env config w).events = .scan :: rest := by
    rw [getTokenFromWeb_run]
    cases h1 : env.authCode with
    | none => exact ⟨[], by simp⟩
    | some code => cases h2 : env.exchange code <;> exact ⟨[.exchange code], by simp [h2]⟩
  obtain ⟨rest, hrest⟩ := hscan
  refine ⟨hload, ?_, ?_, ?_⟩
  · rw [getClient_of_load]
    simp only [hload]
    cases h1 : (getTokenFromWeb env config w).status with
    | exited c => exact ⟨rest, by simp [hrest]⟩
    | returned tok =>
      cases h2 : (saveToken env tokenFile tok (getTokenFromWeb env config w).world).status <;>
        exact ⟨rest ++ (saveToken env tokenFile tok (getTokenFromWeb env config w).world).events,
          by simp [hrest, h2]⟩
  · intro c hc
    rw [getClient_of_load]
    simp [hload, hc]
  · intro tok ht
    have hg : (getClient env config w).events =
          (tokenFromFile env tokenFile w).events ++ ((getTokenFromWeb env config w).events ++
            (saveToken env tokenFile tok (getTokenFromWeb env config w).world).events) ∧
        (getClient env config w).world =
          (saveToken env tokenFile tok (getTokenFromWeb env config w).world).world ∧
        ((saveToken env tokenFile tok (getTokenFromWeb env config w).world).status = .returned () →
          (getClient env config w).status = .returned ⟨config, tok⟩) ∧
        (∀ c, (saveToken env tokenFile tok (getTokenFromWeb env config w).world).status
            = .exited c → (getClient env config w).status = .exited c) := by
      rw [getClient_of_load]
      simp only [hload, ht]
      cases h2 : (saveToken env tokenFile tok (getTokenFromWeb env config w).world).status <;>
        simp
    refine ⟨hg.1, hg.2.1, hg.2.2.1, hg.2.2.2, ?_⟩
    intro b hopen henc hwrite
    obtain ⟨h1, h2⟩ := saveToken_saved env tokenFile tok (getTokenFromWeb env config w).world b
      hopen henc hwrite
    exact ⟨hg.2.2.1 h1, by rw [hg.2.1]; exact h2⟩

theorem getClient_without_cache_witness :
    bareWorld.files tokenFile = none ∧
    (tokenFromFile demoEnv tokenFile bareWorld).status = .returned none ∧
    (getClient demoEnv demoConfig bareWorld).status = .returned ⟨demoConfig, freshToken⟩ ∧
    (getClient demoEnv demoConfig bareWorld).events =
      [.osOpen tokenFile, .scan, .exchange "4/0A", .openFile tokenFile, .write tokenFile,
        .close tokenFile] ∧
    (getClient demoEnv demoConfig bareWorld).world.files tokenFile = some freshJSON := by
  have h := getClient_without_cache demoEnv demoConfig bareWorld (Or.inl (by decide))
  refine ⟨by decide, h.1, ?_, by decide, by decide⟩
  exact (h.2.2.2 freshToken (by decide)).2.2.1 (by decide)

theorem FlagSet.Parse_run (arguments : List String) (w : World) :
    FlagSet.Parse .ExitOnError arguments w =
      match parseOne arguments with
      | (none, args) => ⟨.returned (none, args), w, []⟩
      | (some err, _) =>
        ⟨.exited (if err = .help then 0 else 2),
          { w with stderr := w.stderr ++ err.output }, []⟩ := by
  unfold FlagSet.Parse
  rcases h : parseOne arguments with ⟨_ | err, args⟩
  · simp
  · by_cases he : err = .help <;> simp [he, eprintlns]

theorem parseOne_of_not_flag (s : String) (rest : List String)
    (h : s.data.head? ≠ some '-' ∨ s.data.length < 2) :
    parseOne (s :: rest) = (none, s :: rest) := by
  simp only [parseOne]
  split
  · rename_i c cs heq
    rcases h with h | h
    · simp [heq] at h
    · simp [heq] at h
      omega
  · rfl

theorem osReadFile_run (env : Env) (path : String) (w : World) :
    osReadFile env path w =
      ⟨.returned (if env.readDenied path then none else w.files path), w, [.readFile path]⟩ := by
  by_cases h : env.readDenied path = true <;> simp [osReadFile, h]

theorem bind_events {α β : Type} (m : Prog α) (f : α → Prog β) (w : World) :
    ∃ rest, ((m >>= f) w).events = (m w).events ++ rest := by
  rw [run_bind]
  cases h : (m w).status with
  | returned a => exact ⟨_, rfl⟩
  | exited c => exact ⟨[], by simp⟩

theorem uploadVideo_events_ne_nil (env : Env) (videoPath : String) (w : World) :
    (uploadVideo env videoPath w).events ≠ [] := by
  unfold uploadVideo
  obtain ⟨rest, h⟩ := bind_events (osReadFile env "credentials.json")
    (fun r => match r with
      | none => logFatalf "Unable to read client secret file"
      | some b => _) w
  rw [h, osReadFile_run]
  simp

/-- An argument that starts with a dash, has a second character and is not the
terminator is read as a flag; no flag being defined, that is always an error:
bad syntax when the name is empty or starts with a dash or an equals sign, the
help error when the name (up to an equals sign) is `h` or `help`, and "not
defined" for every other name. -/
theorem parseOne_of_flag (s : String) (rest : List String) (c : Char) (cs : List Char)
    (hs : s.data = '-' :: c :: cs) (hterm : ¬ (c = '-' ∧ cs = [])) :
    parseOne (s :: rest) =
      match (if c = '-' then cs else c :: cs) with
      | [] => (some (.badSyntax s), s :: rest)
      | n0 :: ns =>
        if n0 = '-' ∨ n0 = '=' then (some (.badSyntax s), s :: rest)
        else if n0 :: ns.takeWhile (fun x => x != '=') = ['h', 'e', 'l', 'p'] ∨
            n0 :: ns.takeWhile (fun x => x != '=') = ['h'] then (some .help, rest)
        else (some (.notDefined ⟨n0 :: ns.takeWhile (fun x => x != '=')⟩), rest) := by
  simp only [parseOne, hs, hterm, if_false]

theorem parseOne_flag_error (s : String) (rest : List String) (c : Char) (cs : List Char)
    (hs : s.data = '-' :: c :: cs) (hterm : ¬ (c = '-' ∧ cs = [])) :
    ∃ err r, parseOne (s :: rest) = (some err, r) := by
  rw [parseOne_of_flag s rest c cs hs hterm]
  split
  · exact ⟨_, _, rfl⟩
  · split
    · exact ⟨_, _, rfl⟩
    · split <;> exact ⟨_, _, rfl⟩

theorem parseOne_examples (rest : List String) :
    parseOne ("--" :: rest) = (none, rest) ∧
    parseOne ("-h" :: rest) = (some .help, rest) ∧
    parseOne ("-help" :: rest) = (some .help, rest) ∧
    parseOne ("--help" :: rest) = (some .help, rest) ∧
    parseOne ("-" :: rest) = (none, "-" :: rest) ∧
    parseOne ("-x" :: rest) = (some (.notDefined "x"), rest) ∧
    parseOne ("-v=1" :: rest) = (some (.notDefined "v"), rest) ∧
    parseOne ("---" :: rest) = (some (.badSyntax "---"), "---" :: rest) :=
  ⟨rfl, rfl, rfl, rfl, rfl, rfl, rfl, rfl⟩

theorem dropTrailingSlashes_cases (rev : List Char) :
    dropTrailingSlashes rev = [] ∨ dropTrailingSlashes rev = ['/'] ∨
      ∃ c tl, dropTrailingSlashes rev = c :: tl ∧ c ≠ '/' := by
  induction rev with
  | nil => left; rfl
  | cons c rev ih =>
    cases rev with
    | nil =>
      by_cases hc : c = '/'
      · right; left; rw [hc]; rfl
      · right; right; exact ⟨c, [], rfl, hc⟩
    | cons d rev =>
      by_cases hc : c = '/'
      · simpa [dropTrailingSlashes, hc] using ih
      · right; right
        exact ⟨c, d :: rev, by simp [dropTrailingSlashes, hc], hc⟩

theorem baseName_examples :
    baseName "videos/clip.mp4" = "clip.mp4" ∧ baseName "clip.mp4" = "clip.mp4" ∧
    baseName "/srv/media/my.video.mov" = "my.video.mov" ∧
    baseName "videos/" = "videos" ∧ baseName "videos//" = "videos" ∧
    baseName "/" = "/" ∧ baseName "//" = "/" ∧ baseName "" = "" := by
  decide

/-- A base name holds no path separator, unless it is the root `/` itself. -/
theorem baseName_no_separator (path : String) :
    baseName path = "/" ∨ ∀ c ∈ (baseName path).data, IsPathSeparator c = false := by
  unfold baseName
  rcases dropTrailingSlashes_cases path.data.reverse with h | h | ⟨c, tl, h, hc⟩
  · right
    rw [h]
    intro c hc
    cases hc
  · left
    rw [h]
    rfl
  · right
    rw [h]
    intro x hx
    simp only [List.mem_reverse, List.mem_cons] at hx
    rcases hx with hx | hx
    · subst hx
      simpa [IsPathSeparator] using hc
    · have := List.mem_takeWhile_imp hx
      simpa [IsPathSeparator] using this

/-- Once the file is open, `saveToken` returns normally whatever the encoder reports. -/
theorem saveToken_returns_of_open (env : Env) (path : String) (token : Token) (w : World)
    (hopen : env.writeDenied path = false) :
    (saveToken env path token w).status = .returned () := by
  rw [saveToken_run]
  simp only [hopen, Bool.false_eq_true, if_false]
  cases env.encode token with
  | none => rfl
  | some b => by_cases h3 : env.writeFails path = true <;> simp [h3]

/-- The dispatch of `main`, case by case.  Without a subcommand, or with a first
argument other than "upload", `main` prints "Expected 'upload' subcommand" and
exits with 1.  After "upload" the other arguments go through the flag set (no
flag defined, `flag.ExitOnError`): when the first of them is read as a flag the
flag package reports the error on standard error and ends the process itself,
with 0 for the help error and with 2 for every other error; when the positional
arguments left are not exactly one, `main` prints "You must provide a video file"
and exits with 1; with exactly one left `main` behaves as `uploadVideo` on it.
In every case but the last no file-system or network call is made, and
`uploadVideo` always makes one. -/
theorem main_dispatch (env : Env) (osArgs : List String) (w : World) :
    ((osArgs.length < 2 ∨ osArgs.getD 1 "" ≠ "upload") →
      main env osArgs w =
        ⟨.exited 1, { w with stdout := w.stdout ++ ["Expected 'upload' subcommand"] }, []⟩) ∧
    (2 ≤ osArgs.length → osArgs.getD 1 "" = "upload" →
      (∀ err rest, parseOne (osArgs.drop 2) = (some err, rest) →
        main env osArgs w =
          ⟨.exited (if err = .help then 0 else 2),
            { w with stderr := w.stderr ++ err.output }, []⟩) ∧
      (∀ args, parseOne (osArgs.drop 2) = (none, args) → args.length ≠ 1 →
        main env osArgs w =
          ⟨.exited 1, { w with stdout := w.stdout ++ ["You must provide a video file"] }, []⟩) ∧
      (∀ p, parseOne (osArgs.drop 2) = (none, [p]) →
        main env osArgs w = uploadVideo env p w)) ∧
    ((main env osArgs w).events ≠ [] →
      2 ≤ osArgs.length ∧ osArgs.getD 1 "" = "upload" ∧
        ∃ p, parseOne (osArgs.drop 2) = (none, [p]) ∧
          main env osArgs w = uploadVideo env p w) ∧
    (∀ p, (uploadVideo env p w).events ≠ []) ∧
    parseOne [] = (none, []) ∧
    (∀ s rest, (s.data.head? ≠ some '-' ∨ s.data.length < 2) →
      parseOne (s :: rest) = (none, s :: rest)) ∧
    (∀ rest, parseOne ("--" :: rest) = (none, rest)) ∧
    (∀ s rest c cs, s.data = '-' :: c :: cs → ¬ (c = '-' ∧ cs = []) →
      (∃ err r, parseOne (s :: rest) = (some err, r)) ∧
      parseOne (s :: rest) =
        match (if c = '-' then cs else c :: cs) with
        | [] => (some (.badSyntax s), s :: rest)
        | n0 :: ns =>
          if n0 = '-' ∨ n0 = '=' then (some (.badSyntax s), s :: rest)
          else if n0 :: ns.takeWhile (fun x => x != '=') = ['h', 'e', 'l', 'p'] ∨
              n0 :: ns.takeWhile (fun x => x != '=') = ['h'] then (some .help, rest)
          else (some (.notDefined ⟨n0 :: ns.takeWhile (fun x => x != '=')⟩), rest)) := by
  have h1 : (osArgs.length < 2 ∨ osArgs.getD 1 "" ≠ "upload") →
      main env osArgs w =
        ⟨.exited 1, { w with stdout := w.stdout ++ ["Expected 'upload' subcommand"] }, []⟩ := by
    intro h
    unfold main
    by_cases hl : osArgs.length < 2
    · simp [hl]
    · have hc : osArgs.getD 1 "" ≠ "upload" := h.resolve_left hl
      simp only [hl, hc, if_false, run_bind, run_println, run_osExit]
      simp
  have h2 : 2 ≤ osArgs.length → osArgs.getD 1 "" = "upload" →
      main env osArgs w =
        match parseOne (osArgs.drop 2) with
        | (some err, _) =>
          ⟨.exited (if err = .help then 0 else 2),
            { w with stderr := w.stderr ++ err.output }, []⟩
        | (none, args) =>
          if args.length ≠ 1 then
            ⟨.exited 1, { w with stdout := w.stdout ++ ["You must provide a video file"] }, []⟩
          else uploadVideo env (args.getD 0 "") w := by
    intro hl hc
    have hl' : ¬ osArgs.length < 2 := by omega
    unfold main
    simp only [hl', if_false, hc, if_true, run_ite, run_bind, FlagSet.Parse_run]
    rcases h : parseOne (osArgs.drop 2) with ⟨_ | err, args⟩
    · by_cases ha : args.length = 1 <;> simp [ha]
    · simp
  refine ⟨h1, ?_, ?_, fun p => uploadVideo_events_ne_nil env p w, rfl, parseOne_of_not_flag,
    fun _ => rfl, fun s rest c cs hs hterm =>
      ⟨parseOne_flag_error s rest c cs hs hterm, parseOne_of_flag s rest c cs hs hterm⟩⟩
  · intro hl hc
    refine ⟨?_, ?_, ?_⟩
    · intro err rest hp
      rw [h2 hl hc, hp]
    · intro args hp ha
      rw [h2 hl hc, hp]
      simp [ha]
    · intro p hp
      rw [h2 hl hc, hp]
      simp
  · intro hev
    by_cases hbad : osArgs.length < 2 ∨ osArgs.getD 1 "" ≠ "upload"
    · rw [h1 hbad] at hev
      exact absurd rfl hev
    · have hl : 2 ≤ osArgs.length := by
        by_contra hlt
        exact hbad (Or.inl (by omega))
      have hc : osArgs.getD 1 "" = "upload" := by
        by_contra hne
        exact hbad (Or.inr hne)
      refine ⟨hl, hc, ?_⟩
      have hm := h2 hl hc
      rcases h : parseOne (osArgs.drop 2) with ⟨_ | err, args⟩
      · rw [h] at hm
        by_cases ha : args.length = 1
        · obtain ⟨p, rfl⟩ := List.length_eq_one.mp ha
          refine ⟨p, rfl, ?_⟩
          rw [hm]
          simp
        · rw [hm] at hev
          simp [ha] at hev
      · rw [h] at hm
        rw [hm] at hev
        exact absurd rfl hev

theorem main_dispatch_witness :
    main demoEnv ["youtube-ul"] demoWorld =
      ⟨.exited 1,
        { demoWorld with stdout := demoWorld.stdout ++ ["Expected 'upload' subcommand"] }, []⟩ ∧
    main demoEnv ["youtube-ul", "upload", "a.mp4", "b.mp4"] demoWorld =
      ⟨.exited 1,
        { demoWorld with stdout := demoWorld.stdout ++ ["You must provide a video file"] }, []⟩ ∧
    main demoEnv ["youtube-ul", "upload", "videos/clip.mp4"] demoWorld =
      uploadVideo demoEnv "videos/clip.mp4" demoWorld := by
  refine ⟨?_, ?_, ?_⟩
  · exact (main_dispatch demoEnv ["youtube-ul"] demoWorld).1 (Or.inl (by decide))
  · exact ((main_dispatch demoEnv ["youtube-ul", "upload", "a.mp4", "b.mp4"] demoWorld).2.1
      (by decide) (by decide)).2.1 ["a.mp4", "b.mp4"] (by decide) (by decide)
  · exact ((main_dispatch demoEnv ["youtube-ul", "upload", "videos/clip.mp4"] demoWorld).2.1
      (by decide) (by decide)).2.2 "videos/clip.mp4" (by decide)

/-- C3 (the code at the failing input): `upload -x videos/clip.mp4` and `upload -h`
deviate from `program upload <video-file-path>`.  The flag set was made with
`flag.ExitOnError`, so `Parse` ends the process itself, with 2 for the undefined
flag and with 0 for the help flag; the branch of `main` that prints "Failed to
parse upload command" and exits with 1 is never reached, nothing is written to
standard output, and the exit code is not 1.  No call is made on the file system
or the network. -/
theorem main_flag_arguments :
    (main demoEnv ["youtube-ul", "upload", "-x", "videos/clip.mp4"] demoWorld).status
      = .exited 2 ∧
    (main demoEnv ["youtube-ul", "upload", "-x", "videos/clip.mp4"] demoWorld).world.stdout
      = [] ∧
    (main demoEnv ["youtube-ul", "upload", "-x", "videos/clip.mp4"] demoWorld).world.stderr
      = ["flag provided but not defined: -x", "Usage of upload:"] ∧
    (main demoEnv ["youtube-ul", "upload", "-x", "videos/clip.mp4"] demoWorld).events = [] ∧
    (main demoEnv ["youtube-ul", "upload", "-h"] demoWorld).status = .exited 0 ∧
    (main demoEnv ["youtube-ul", "upload", "-h"] demoWorld).world.stdout = [] ∧
    (main demoEnv ["youtube-ul", "upload", "-h"] demoWorld).world.stderr
      = ["Usage of upload:"] ∧
    (main demoEnv ["youtube-ul", "upload", "-h"] demoWorld).events = [] := by
  decide

theorem World.addBar_zero (w : World) : w.addBar 0 = w := by
  cases w with
  | mk files out err bar => cases bar <;> simp [World.addBar]

theorem World.addBar_add (w : World) (a b : Nat) : (w.addBar a).addBar b = w.addBar (a + b) := by
  cases w with
  | mk files out err bar => cases bar <;> simp [World.addBar, Nat.add_assoc]

@[simp] theorem World.addBar_files (w : World) (n : Nat) : (w.addBar n).files = w.files := rfl

theorem proxyRead_run (f : File) (n : Nat) (w : World) :
    proxyRead f n w =
      ⟨.returned (⟨f.name, f.offset + ((((w.files f.name).getD []).drop f.offset).take n).length⟩,
          (((w.files f.name).getD []).drop f.offset).take n,
          decide (0 < n) && (((w.files f.name).getD []).drop f.offset).isEmpty),
        w.addBar ((((w.files f.name).getD []).drop f.offset).take n).length,
        [.read f.name ((((w.files f.name).getD []).drop f.offset).take n).length]⟩ := by
  simp [proxyRead, fileRead, barAdd, World.addBar]

theorem drain_run (p : String) (content : Bytes) (sizes : List Nat) :
    ∀ (off : Nat) (acc : Bytes) (w : World), w.files p = some content →
      drain ⟨p, off⟩ sizes acc w =
        ⟨.returned (acc ++ (chunks (content.drop off) sizes).1, (chunks (content.drop off) sizes).2.1),
          w.addBar (chunks (content.drop off) sizes).1.length,
          (chunks (content.drop off) sizes).2.2.map (Event.read p)⟩ := by
  induction sizes with
  | nil =>
    intro off acc w _
    simp [drain, chunks, World.addBar_zero]
  | cons n sizes ih =>
    intro off acc w hw
    unfold drain
    simp only [run_bind, proxyRead_run, hw, Option.getD_some]
    by_cases heof : (decide (0 < n) && (content.drop off).isEmpty) = true
    · simp [heof, chunks]
    · have hw' : (w.addBar ((content.drop off).take n).length).files p = some content := by
        simpa using hw
      simp only [heof, Bool.false_eq_true, if_false]
      rw [ih _ _ _ hw']
      simp [chunks, heof, World.addBar_add, List.drop_drop, Nat.add_comm]

theorem drop_length_take (n : Nat) (l : Bytes) : l.drop (l.take n).length = l.drop n := by
  rw [List.length_take]
  by_cases h : n ≤ l.length
  · rw [Nat.min_eq_left h]
  · have h' : l.length ≤ n := by omega
    rw [Nat.min_eq_right h', List.drop_length, List.drop_eq_nil_of_le h']

theorem chunks_prefix (sizes : List Nat) :
    ∀ rest : Bytes, ∃ t, rest = (chunks rest sizes).1 ++ t := by
  induction sizes with
  | nil => intro rest; exact ⟨rest, by simp [chunks]⟩
  | cons n sizes ih =>
    intro rest
    by_cases heof : (decide (0 < n) && rest.isEmpty) = true
    · exact ⟨rest.drop n, by simp [chunks, heof]⟩
    · obtain ⟨t, ht⟩ := ih (rest.drop (rest.take n).length)
      refine ⟨t, ?_⟩
      simp only [chunks, heof, Bool.false_eq_true, if_false, List.append_assoc]
      rw [← ht, drop_length_take, List.take_append_drop]

theorem chunks_eof (sizes : List Nat) :
    ∀ rest : Bytes, (chunks rest sizes).2.1 = true → (chunks rest sizes).1 = rest := by
  induction sizes with
  | nil => intro rest h; simp [chunks] at h
  | cons n sizes ih =>
    intro rest h
    by_cases heof : (decide (0 < n) && rest.isEmpty) = true
    · have hr : rest = [] := by
        simp only [Bool.and_eq_true, List.isEmpty_iff] at heof
        exact heof.2
      have hn : 0 < n := by
        simp only [Bool.and_eq_true, decide_eq_true_eq] at heof
        exact heof.1
      subst hr
      simp [chunks, hn]
    · simp only [chunks, heof, Bool.false_eq_true, if_false] at h ⊢
      rw [ih _ h, drop_length_take, List.take_append_drop]

theorem chunks_length_le (sizes : List Nat) (rest : Bytes) :
    (chunks rest sizes).1.length ≤ rest.length := by
  obtain ⟨t, ht⟩ := chunks_prefix sizes rest
  have := congrArg List.length ht
  simp only [List.length_append] at this
  omega

theorem videosInsertDo_run (env : Env) (parts : List String) (video : Video) (p : String)
    (content : Bytes) (w : World) (hw : w.files p = some content) :
    videosInsertDo env parts video ⟨p, 0⟩ w =
      ⟨.returned (if (chunks content env.readSizes).2.1 then
            env.remote video (chunks content env.readSizes).1 else none),
        w.addBar (chunks content env.readSizes).1.length,
        (chunks content env.readSizes).2.2.map (Event.read p) ++
          [.insert parts video (chunks content env.readSizes).1
            (if (chunks content env.readSizes).2.1 then
              env.remote video (chunks content env.readSizes).1 else none)]⟩ := by
  unfold videosInsertDo
  simp only [run_bind, drain_run p content env.readSizes 0 [] w hw]
  simp

/-- The outcome of the second half of `uploadVideo`, case by case. -/
theorem sendPhase_run (env : Env) (p : String) (w : World) :
    sendPhase env p w =
      match w.files p with
      | none =>
        ⟨.exited 1, { w with stderr := w.stderr ++ ["Error opening video file"] }, [.osOpen p]⟩
      | some content =>
        if env.readDenied p then
          ⟨.exited 1, { w with stderr := w.stderr ++ ["Error opening video file"] }, [.osOpen p]⟩
        else if env.statFails p then
          ⟨.exited 1, { w with stderr := w.stderr ++ ["Unable to get file info"] },
            [.osOpen p, .stat p]⟩
        else
          match (if (chunks content env.readSizes).2.1 then
              env.remote (videoFor (baseName p)) (chunks content env.readSizes).1 else none) with
          | none =>
            ⟨.exited 1,
              { files := w.files,
                stdout := w.stdout ++ ["Uploading " ++ (videoFor (baseName p)).Snippet.Title],
                stderr := w.stderr ++ ["Error making YouTube API call"],
                bar := some ⟨content.length, (chunks content env.readSizes).1.length, false⟩ },
              .osOpen p :: .stat p :: ((chunks content env.readSizes).2.2.map (Event.read p) ++
                [.insert ["snippet", "status"] (videoFor (baseName p))
                  (chunks content env.readSizes).1 none])⟩
          | some id =>
            if env.removeDenied p then
              ⟨.exited 1,
                { files := w.files,
                  stdout := w.stdout ++ ["Uploading " ++ (videoFor (baseName p)).Snippet.Title,
                    "Upload successful! Video ID: " ++ id],
                  stderr := w.stderr ++ ["Error removing video"],
                  bar := some ⟨content.length, (chunks content env.readSizes).1.length, true⟩ },
                .osOpen p :: .stat p :: ((chunks content env.readSizes).2.2.map (Event.read p) ++
                  [.insert ["snippet", "status"] (videoFor (baseName p))
                    (chunks content env.readSizes).1 (some id), .remove p])⟩
            else
              ⟨.returned (),
                { files := fun q => if q = p then none else w.files q,
                  stdout := w.stdout ++ ["Uploading " ++ (videoFor (baseName p)).Snippet.Title,
                    "Upload successful! Video ID: " ++ id],
                  stderr := w.stderr,
                  bar := some ⟨content.length, (chunks content env.readSizes).1.length, true⟩ },
                .osOpen p :: .stat p :: ((chunks content env.readSizes).2.2.map (Event.read p) ++
                  [.insert ["snippet", "status"] (videoFor (baseName p))
                    (chunks content env.readSizes).1 (some id), .remove p, .close p])⟩ := by
  cases hf : w.files p with
  | none => simp [sendPhase, osOpen, hf]
  | some content =>
    by_cases hr : env.readDenied p = true
    · simp [sendPhase, osOpen, hf, hr]
    · by_cases hs : env.statFails p = true
      · simp [sendPhase, osOpen, fileStat, hf, hr, hs]
      · have hw1 : ({ w with
            stdout := w.stdout ++ ["Uploading " ++ TrimSuffix (baseName p) (Ext (baseName p))],
            bar := some ⟨content.length, 0, false⟩ } : World).files p = some content := hf
        simp only [sendPhase, osOpen, fileStat, hf, hr, hs, run_bind, run_emit, run_getWorld,
          run_pure, run_println, barStart64, Bool.false_eq_true, if_false, List.append_nil,
          List.nil_append, List.singleton_append, List.cons_append]
        rw [videosInsertDo_run env _ _ p content _ hw1]
        cases hres : (if (chunks content env.readSizes).2.1 then
              env.remote (videoFor (baseName p)) (chunks content env.readSizes).1 else none) with
        | none =>
          simp only [videoFor] at hres
          simp [hres, videoFor, World.addBar]
        | some id =>
          simp only [videoFor] at hres
          by_cases hd : env.removeDenied p = true
          · simp [hres, videoFor, World.addBar, barFinish, osRemove, fileClose, hf, hd]
          · simp [hres, videoFor, World.addBar, barFinish, osRemove, fileClose, hf, hd,
              World.setFile]

theorem uploadVideo_eq (env : Env) (p : String) (w : World) :
    uploadVideo env p w = (authPhase env >>= fun _ => sendPhase env p) w := by
  unfold uploadVideo authPhase sendPhase
  simp only [run_bind, osReadFile_run]
  cases h1 : (if env.readDenied "credentials.json" = true then none
      else w.files "credentials.json") with
  | none => simp
  | some b =>
    cases h2 : env.configFromJSON b with
    | none => simp [h2]
    | some config =>
      simp only [h2, run_bind]
      cases h3 : (getClient env config w).status with
      | exited c => simp [h3]
      | returned client =>
        by_cases h4 : env.newServiceFails = true
        · simp [h3, youtubeNewService, h4]
        · simp only [h3, youtubeNewService, h4, run_bind, run_emit, run_pure, Bool.false_eq_true,
            if_false, run_ite]
          simp

theorem FilesKept.refl (w : World) : FilesKept w w := fun _ => ⟨fun _ => rfl, id⟩

theorem FilesKept.trans {a b c : World} (h1 : FilesKept a b) (h2 : FilesKept b c) :
    FilesKept a c := fun q =>
  ⟨fun hq => ((h2 q).1 hq).trans ((h1 q).1 hq), fun h => (h2 q).2 ((h1 q).2 h)⟩

theorem FilesKept.of_files_eq {a b : World} (h : b.files = a.files) : FilesKept a b := fun q =>
  ⟨fun _ => by rw [h], fun hs => by rw [h]; exact hs⟩

theorem FilesKept.setFile {w w0 : World} (h : FilesKept w w0) (b : Bytes) :
    FilesKept w (World.setFile w0 tokenFile (some b)) := by
  intro q
  constructor
  · intro hq
    simp [World.setFile, hq, (h q).1 hq]
  · intro hs
    by_cases hq : q = tokenFile
    · simp [World.setFile, hq]
    · simpa [World.setFile, hq] using (h q).2 hs

theorem saveToken_kept (env : Env) (token : Token) (w : World) :
    FilesKept w (saveToken env tokenFile token w).world ∧
    (saveToken env tokenFile token w).events.all Event.isAuth = true ∧
    (∀ c, (saveToken env tokenFile token w).status = .exited c → c = 1) := by
  have h0 : FilesKept w
      { w with stdout := w.stdout ++ ["Saving credential file to: " ++ tokenFile] } :=
    FilesKept.of_files_eq rfl
  rw [saveToken_run]
  by_cases h1 : env.writeDenied tokenFile = true
  · simp only [h1, if_true]
    exact ⟨FilesKept.of_files_eq rfl, by simp [Event.isAuth], fun c hc => by cases hc; rfl⟩
  · simp only [h1, Bool.false_eq_true, if_false]
    cases h2 : env.encode token with
    | none =>
      simp only
      exact ⟨h0.setFile _, by simp [Event.isAuth], fun c hc => by cases hc⟩
    | some b =>
      by_cases h3 : env.writeFails tokenFile = true
      · simp only [h3, if_true]
        exact ⟨h0.setFile _, by simp [Event.isAuth], fun c hc => by cases hc⟩
      · simp only [h3, Bool.false_eq_true, if_false]
        exact ⟨(h0.setFile _).setFile _, by simp [Event.isAuth], fun c hc => by cases hc⟩

theorem getTokenFromWeb_kept (env : Env) (config : Config) (w : World) :
    (getTokenFromWeb env config w).world.files = w.files ∧
    (getTokenFromWeb env config w).events.all Event.isAuth = true ∧
    (∀ c, (getTokenFromWeb env config w).status = .exited c → c = 1) := by
  rw [getTokenFromWeb_run]
  cases h1 : env.authCode with
  | none =>
    simp only
    exact ⟨trivial, by simp [Event.isAuth], fun c hc => by cases hc; rfl⟩
  | some code =>
    cases h2 : env.exchange code with
    | none =>
      simp only [h2]
      exact ⟨trivial, by simp [Event.isAuth], fun c hc => by cases hc; rfl⟩
    | some tok =>
      simp only [h2]
      exact ⟨trivial, by simp [Event.isAuth], fun c hc => by cases hc⟩

theorem tokenFromFile_kept (env : Env) (file : String) (w : World) :
    (tokenFromFile env file w).events.all Event.isAuth = true ∧
    (∀ c, (tokenFromFile env file w).status ≠ .exited c) := by
  rw [tokenFromFile_run]
  cases h1 : w.files file with
  | none =>
    simp only
    exact ⟨by simp [Event.isAuth], fun c hc => by cases hc⟩
  | some b =>
    by_cases h2 : env.readDenied file = true
    · simp only [h2, if_true]
      exact ⟨by simp [Event.isAuth], fun c hc => by cases hc⟩
    · simp only [h2, Bool.false_eq_true, if_false]
      exact ⟨by simp [Event.isAuth], fun c hc => by cases hc⟩

theorem getClient_kept (env : Env) (config : Config) (w : World) :
    FilesKept w (getClient env config w).world ∧
    (getClient env config w).events.all Event.isAuth = true ∧
    (∀ c, (getClient env config w).status = .exited c → c = 1) := by
  have hl := tokenFromFile_kept env tokenFile w
  rw [getClient_of_load]
  cases h : (tokenFromFile env tokenFile w).status with
  | exited c => exact absurd h (hl.2 c)
  | returned r =>
    cases r with
    | none =>
      simp only
      have hweb := getTokenFromWeb_kept env config w
      cases h1 : (getTokenFromWeb env config w).status with
      | exited c =>
        simp only
        exact ⟨FilesKept.of_files_eq hweb.1, by simp [List.all_append, hl.1, hweb.2.1],
          fun c1 hc => by cases hc; exact hweb.2.2 c h1⟩
      | returned tok =>
        simp only
        have hsave := saveToken_kept env tok (getTokenFromWeb env config w).world
        have hk : FilesKept w
            (saveToken env tokenFile tok (getTokenFromWeb env config w).world).world :=
          (FilesKept.of_files_eq hweb.1).trans hsave.1
        cases h2 : (saveToken env tokenFile tok (getTokenFromWeb env config w).world).status with
        | exited c =>
          simp only
          exact ⟨hk, by simp [List.all_append, hl.1, hweb.2.1, hsave.2.1],
            fun c1 hc => by cases hc; exact hsave.2.2 c h2⟩
        | returned u =>
          simp only
          exact ⟨hk, by simp [List.all_append, hl.1, hweb.2.1, hsave.2.1],
            fun c1 hc => by cases hc⟩
    | some tok =>
      simp only
      by_cases hexp : tok.Expiry < env.now
      · simp only [hexp, if_true]
        cases h3 : env.refresh tok with
        | none =>
          simp only
          exact ⟨FilesKept.of_files_eq rfl, by simp [List.all_append, hl.1, Event.isAuth],
            fun c1 hc => by cases hc; rfl⟩
        | some t =>
          simp only
          have hsave := saveToken_kept env t w
          cases h4 : (saveToken env tokenFile t w).status with
          | exited c =>
            simp only
            exact ⟨hsave.1, by simp [List.all_append, hl.1, hsave.2.1, Event.isAuth],
              fun c1 hc => by cases hc; exact hsave.2.2 c h4⟩
          | returned u =>
            simp only
            exact ⟨hsave.1, by simp [List.all_append, hl.1, hsave.2.1, Event.isAuth],
              fun c1 hc => by cases hc⟩
      · simp only [hexp, if_false]
        exact ⟨FilesKept.refl w, hl.1, fun c1 hc => by cases hc⟩

theorem authPhase_kept (env : Env) (w : World) :
    FilesKept w (authPhase env w).world ∧
    (authPhase env w).events.all Event.isAuth = true ∧
    (∀ c, (authPhase env w).status = .exited c → c = 1) := by
  unfold authPhase
  simp only [run_bind, osReadFile_run]
  cases h1 : (if env.readDenied "credentials.json" = true then none
      else w.files "credentials.json") with
  | none =>
    simp only [run_logFatalf]
    exact ⟨FilesKept.of_files_eq rfl, by simp [Event.isAuth], fun c hc => by cases hc; rfl⟩
  | some b =>
    cases h2 : env.configFromJSON b with
    | none =>
      simp only [h2, run_logFatalf]
      exact ⟨FilesKept.of_files_eq rfl, by simp [Event.isAuth], fun c hc => by cases hc; rfl⟩
    | some config =>
      simp only [h2, run_bind]
      have hg := getClient_kept env config w
      cases h3 : (getClient env config w).status with
      | exited c =>
        simp only [h3]
        exact ⟨hg.1, by simp [Event.isAuth, hg.2.1], fun c1 hc => by cases hc; exact hg.2.2 c h3⟩
      | returned client =>
        by_cases h4 : env.newServiceFails = true
        · simp only [h3, youtubeNewService, h4, run_bind, run_emit, run_pure, if_true,
            run_logFatalf]
          exact ⟨hg.1.trans (FilesKept.of_files_eq rfl), by simp [Event.isAuth, hg.2.1],
            fun c1 hc => by cases hc; rfl⟩
        · simp only [h3, youtubeNewService, h4, run_bind, run_emit, run_pure,
            Bool.false_eq_true, if_false]
          exact ⟨hg.1, by simp [Event.isAuth, hg.2.1], fun c1 hc => by cases hc⟩

theorem uploadVideo_run (env : Env) (p : String) (w : World) :
    uploadVideo env p w =
      match (authPhase env w).status with
      | .returned _ =>
        ⟨(sendPhase env p (authPhase env w).world).status,
          (sendPhase env p (authPhase env w).world).world,
          (authPhase env w).events ++ (sendPhase env p (authPhase env w).world).events⟩
      | .exited c => ⟨.exited c, (authPhase env w).world, (authPhase env w).events⟩ := by
  rw [uploadVideo_eq, run_bind]
  cases h : (authPhase env w).status <;> rfl

theorem insertSucceeded_append (a b : List Event) :
    insertSucceeded (a ++ b) = (insertSucceeded a || insertSucceeded b) := by
  simp [insertSucceeded, List.any_append]

theorem insertSucceeded_of_auth (evs : List Event) (h : evs.all Event.isAuth = true) :
    insertSucceeded evs = false := by
  induction evs with
  | nil => rfl
  | cons e evs ih =>
    simp only [List.all_cons, Bool.and_eq_true] at h
    have := ih h.2
    simp only [insertSucceeded, List.any_cons] at this ⊢
    rw [this]
    cases e <;> simp_all [Event.isAuth]

theorem not_mem_of_auth (evs : List Event) (h : evs.all Event.isAuth = true) (e : Event)
    (he : e.isAuth = false) : e ∉ evs := by
  intro hm
  have := (List.all_eq_true.mp h) e hm
  rw [he] at this
  cases this

theorem insertSucceeded_reads (p : String) (lens : List Nat) :
    insertSucceeded (lens.map (Event.read p)) = false := by
  induction lens with
  | nil => rfl
  | cons n lens ih =>
    simp only [insertSucceeded, List.map_cons, List.any_cons] at ih ⊢
    rw [ih]
    rfl

theorem mem_reads (p : String) (lens : List Nat) (e : Event)
    (h : e ∈ lens.map (Event.read p)) : ∃ n, e = .read p n := by
  obtain ⟨n, _, hn⟩ := List.mem_map.mp h
  exact ⟨n, hn.symm⟩

theorem chunks_sum (sizes : List Nat) :
    ∀ rest : Bytes, (chunks rest sizes).2.2.sum = (chunks rest sizes).1.length := by
  induction sizes with
  | nil => intro rest; simp [chunks]
  | cons n sizes ih =>
    intro rest
    by_cases heof : (decide (0 < n) && rest.isEmpty) = true
    · simp [chunks, heof]
    · simp only [chunks, heof, Bool.false_eq_true, if_false, List.sum_cons, List.length_append]
      rw [ih]

/-- The second half of `uploadVideo` either fails before or in the insert call,
leaving every file in place and removing nothing, or the insert call succeeds on
the whole content and `os.Remove` is called with the handle still open. -/
theorem sendPhase_cases (env : Env) (p : String) (w : World) :
    ((sendPhase env p w).status = .exited 1 ∧
      (sendPhase env p w).world.files = w.files ∧
      insertSucceeded (sendPhase env p w).events = false ∧
      (∀ q, Event.remove q ∉ (sendPhase env p w).events) ∧
      (∀ q, Event.close q ∉ (sendPhase env p w).events)) ∨
    (∃ (content : Bytes) (id : String) (lens : List Nat),
      w.files p = some content ∧
      env.remote (videoFor (baseName p)) content = some id ∧
      lens.sum = content.length ∧
      (sendPhase env p w).events =
        .osOpen p :: .stat p :: (lens.map (Event.read p) ++
          (.insert ["snippet", "status"] (videoFor (baseName p)) content (some id) ::
            .remove p :: (if env.removeDenied p then [] else [.close p]))) ∧
      (sendPhase env p w).world.bar = some ⟨content.length, content.length, true⟩ ∧
      (sendPhase env p w).status = (if env.removeDenied p then .exited 1 else .returned ()) ∧
      (sendPhase env p w).world.files =
        (if env.removeDenied p then w.files else fun q => if q = p then none else w.files q)) := by
  rw [sendPhase_run]
  cases hf : w.files p with
  | none =>
    left
    simp [insertSucceeded]
  | some content =>
    by_cases hr : env.readDenied p = true
    · left
      simp [hr, insertSucceeded]
    · by_cases hs : env.statFails p = true
      · left
        simp [hr, hs, insertSucceeded]
      · simp only [hr, hs, Bool.false_eq_true, if_false]
        cases hres : (if (chunks content env.readSizes).2.1 then
              env.remote (videoFor (baseName p)) (chunks content env.readSizes).1 else none) with
        | none =>
          left
          simp only
          refine ⟨trivial, trivial, ?_, ?_, ?_⟩
          · have hcons : ∀ (a b : Event) (l : List Event),
                a :: b :: l = [a, b] ++ l := fun _ _ _ => rfl
            rw [hcons, insertSucceeded_append, insertSucceeded_append, insertSucceeded_reads]
            rfl
          · intro q hq
            simp only [List.mem_cons, List.mem_append, List.mem_singleton, reduceCtorEq,
              false_or, or_false, List.not_mem_nil] at hq
            obtain ⟨n, hn⟩ := mem_reads p _ _ hq
            cases hn
          · intro q hq
            simp only [List.mem_cons, List.mem_append, List.mem_singleton, reduceCtorEq,
              false_or, or_false, List.not_mem_nil] at hq
            obtain ⟨n, hn⟩ := mem_reads p _ _ hq
            cases hn
        | some id =>
          right
          have heof : (chunks content env.readSizes).2.1 = true := by
            by_contra hne
            simp [hne] at hres
          have hbody : (chunks content env.readSizes).1 = content := chunks_eof _ _ heof
          rw [heof, if_pos rfl, hbody] at hres
          have hsum := chunks_sum env.readSizes content
          rw [hbody] at hsum
          refine ⟨content, id, (chunks content env.readSizes).2.2, rfl, hres, hsum,
            ?_, ?_, ?_, ?_⟩
          · by_cases hd : env.removeDenied p = true <;> simp [hd, hbody]
          · by_cases hd : env.removeDenied p = true <;> simp [hd, hbody]
          · by_cases hd : env.removeDenied p = true <;> simp [hd]
          · by_cases hd : env.removeDenied p = true <;> simp [hd]

/-- Every insert call of the second half carries the parts and the resource built
from the base name of the path. -/
theorem sendPhase_insert_form (env : Env) (p : String) (w : World) (parts : List String)
    (v : Video) (body : Bytes) (id : Option String)
    (h : Event.insert parts v body id ∈ (sendPhase env p w).events) :
    parts = ["snippet", "status"] ∧ v = videoFor (baseName p) := by
  rw [sendPhase_run] at h
  have hread : ∀ lens : List Nat, Event.insert parts v body id ∉ lens.map (Event.read p) := by
    intro lens hm
    obtain ⟨n, hn⟩ := mem_reads p lens _ hm
    cases hn
  cases hf : w.files p with
  | none => simp [hf] at h
  | some content =>
    by_cases hr : env.readDenied p = true
    · simp [hf, hr] at h
    · by_cases hs : env.statFails p = true
      · simp [hf, hr, hs] at h
      · simp only [hf, hr, hs, Bool.false_eq_true, if_false] at h
        cases hres : (if (chunks content env.readSizes).2.1 then
              env.remote (videoFor (baseName p)) (chunks content env.readSizes).1 else none) with
        | none =>
          rw [hres] at h
          simp only [List.mem_cons, List.mem_append, List.mem_singleton, reduceCtorEq,
            false_or, hread, Event.insert.injEq, List.not_mem_nil, or_false] at h
          exact ⟨h.1, h.2.1⟩
        | some i =>
          rw [hres] at h
          by_cases hd : env.removeDenied p = true
          · simp only [hd, if_true, List.mem_cons, List.mem_append, List.mem_singleton,
              reduceCtorEq, false_or, hread, Event.insert.injEq, List.not_mem_nil, or_false] at h
            exact ⟨h.1, h.2.1⟩
          · simp only [hd, Bool.false_eq_true, if_false, List.mem_cons, List.mem_append,
              List.mem_singleton, reduceCtorEq, false_or, hread, Event.insert.injEq,
              List.not_mem_nil, or_false] at h
            exact ⟨h.1, h.2.1⟩

/-- A run of `uploadVideo` either ends the process with 1 before any removal,
keeping every file, or goes through a successful insert call of the whole file
followed by `os.Remove` and, only if that succeeds, the deferred close. -/
theorem uploadVideo_cases (env : Env) (p : String) (w : World) :
    ((uploadVideo env p w).status = .exited 1 ∧
      FilesKept w (uploadVideo env p w).world ∧
      insertSucceeded (uploadVideo env p w).events = false ∧
      (∀ q, Event.remove q ∉ (uploadVideo env p w).events)) ∨
    (∃ (content : Bytes) (id : String) (lens : List Nat),
      (authPhase env w).world.files p = some content ∧
      FilesKept w (authPhase env w).world ∧
      (authPhase env w).events.all Event.isAuth = true ∧
      env.remote (videoFor (baseName p)) content = some id ∧
      lens.sum = content.length ∧
      (uploadVideo env p w).events =
        (authPhase env w).events ++ .osOpen p :: .stat p :: (lens.map (Event.read p) ++
          (.insert ["snippet", "status"] (videoFor (baseName p)) content (some id) ::
            .remove p :: (if env.removeDenied p then [] else [.close p]))) ∧
      (uploadVideo env p w).world.bar = some ⟨content.length, content.length, true⟩ ∧
      (uploadVideo env p w).status = (if env.removeDenied p then .exited 1 else .returned ()) ∧
      (uploadVideo env p w).world.files =
        (if env.removeDenied p then (authPhase env w).world.files
          else fun q => if q = p then none else (authPhase env w).world.files q)) := by
  have ha := authPhase_kept env w
  rw [uploadVideo_run]
  cases hst : (authPhase env w).status with
  | exited c =>
    left
    simp only
    have hc : c = 1 := ha.2.2 c hst
    subst hc
    exact ⟨rfl, ha.1, insertSucceeded_of_auth _ ha.2.1,
      fun q => not_mem_of_auth _ ha.2.1 (Event.remove q) rfl⟩
  | returned client =>
    simp only
    rcases sendPhase_cases env p (authPhase env w).world with
      ⟨h1, h2, h3, h4, _⟩ | ⟨content, id, lens, h1, h2, hsum, h3, h4, h5, h6⟩
    · left
      refine ⟨h1, ha.1.trans (FilesKept.of_files_eq h2), ?_, ?_⟩
      · rw [insertSucceeded_append, insertSucceeded_of_auth _ ha.2.1, h3]
        rfl
      · intro q hq
        rcases List.mem_append.mp hq with hq | hq
        · exact not_mem_of_auth _ ha.2.1 (Event.remove q) rfl hq
        · exact h4 q hq
    · right
      exact ⟨content, id, lens, h1, ha.1, ha.2.1, h2, hsum, by rw [h3], h4, h5, h6⟩

theorem insertSucceeded_success_run (pre : List Event) (p : String) (lens : List Nat)
    (parts : List String) (v : Video) (body : Bytes) (id : String) (tail : List Event) :
    insertSucceeded (pre ++ .osOpen p :: .stat p :: (lens.map (Event.read p) ++
      (.insert parts v body (some id) :: tail))) = true := by
  simp [insertSucceeded]

/-- C1 (amended): `os.Remove` is called, and only on the video path, exactly in
the runs in which the insert call reports success.  In a run without that success
(a failure of any earlier step included) the process exits with 1, no file
disappears and no file other than `token.json` changes.  In a run with it, the
source file is gone afterwards and `uploadVideo` returns when `os.Remove`
succeeds; when `os.Remove` fails the process exits with 1 and the source file
still exists. -/
theorem uploadVideo_removal (env : Env) (p : String) (w : World) :
    ((∃ q, Event.remove q ∈ (uploadVideo env p w).events) ↔
      insertSucceeded (uploadVideo env p w).events = true) ∧
    (∀ q, Event.remove q ∈ (uploadVideo env p w).events → q = p) ∧
    (insertSucceeded (uploadVideo env p w).events = false →
      (uploadVideo env p w).status = .exited 1 ∧
      (∀ q, (w.files q).isSome → ((uploadVideo env p w).world.files q).isSome) ∧
      (∀ q, q ≠ tokenFile → (uploadVideo env p w).world.files q = w.files q)) ∧
    (insertSucceeded (uploadVideo env p w).events = true → env.removeDenied p = false →
      (uploadVideo env p w).status = .returned () ∧
      (uploadVideo env p w).world.files p = none) ∧
    (insertSucceeded (uploadVideo env p w).events = true → env.removeDenied p = true →
      (uploadVideo env p w).status = .exited 1 ∧
      ((uploadVideo env p w).world.files p).isSome) := by
  rcases uploadVideo_cases env p w with
    ⟨h1, h2, h3, h4⟩ | ⟨content, id, lens, hf, hk, hauth, hres, hsum, hev, hbar, hst, hfiles⟩
  · refine ⟨⟨fun ⟨q, hq⟩ => absurd hq (h4 q), fun h => ?_⟩, fun q hq => absurd hq (h4 q),
      fun _ => ⟨h1, fun q => (h2 q).2, fun q => (h2 q).1⟩, fun h => ?_, fun h => ?_⟩
    · rw [h3] at h; cases h
    · rw [h3] at h; cases h
    · rw [h3] at h; cases h
  · have hsucc : insertSucceeded (uploadVideo env p w).events = true := by
      rw [hev]; exact insertSucceeded_success_run _ _ _ _ _ _ _ _
    refine ⟨⟨fun _ => hsucc, fun _ => ⟨p, ?_⟩⟩, ?_, fun h => ?_, fun _ hd => ?_, fun _ hd => ?_⟩
    · rw [hev]
      simp
    · intro q hq
      rw [hev] at hq
      rcases List.mem_append.mp hq with hq | hq
      · exact absurd hq (not_mem_of_auth _ hauth (Event.remove q) rfl)
      · simp only [List.mem_cons, List.mem_append, reduceCtorEq, false_or,
          Event.remove.injEq] at hq
        rcases hq with hq | hq | hq
        · obtain ⟨n, hn⟩ := mem_reads p lens _ hq
          cases hn
        · exact hq
        · by_cases hd : env.removeDenied p = true
          · simp [hd] at hq
          · simp [hd] at hq
    · rw [hsucc] at h; cases h
    · rw [hst, hfiles]
      simp [hd]
    · rw [hst, hfiles]
      simp [hd, hf]

theorem uploadVideo_removal_witness :
    insertSucceeded (uploadVideo demoEnv "videos/clip.mp4" demoWorld).events = true ∧
    demoEnv.removeDenied "videos/clip.mp4" = false ∧
    (uploadVideo demoEnv "videos/clip.mp4" demoWorld).status = .returned () ∧
    (uploadVideo demoEnv "videos/clip.mp4" demoWorld).world.files "videos/clip.mp4" = none ∧
    insertSucceeded (uploadVideo demoEnv "videos/missing.mp4" demoWorld).events = false ∧
    (uploadVideo demoEnv "videos/missing.mp4" demoWorld).status = .exited 1 ∧
    (∀ q, Event.remove q ∉ (uploadVideo demoEnv "videos/missing.mp4" demoWorld).events) := by
  have h := uploadVideo_removal demoEnv "videos/clip.mp4" demoWorld
  have h2 := uploadVideo_removal demoEnv "videos/missing.mp4" demoWorld
  have hs : insertSucceeded (uploadVideo demoEnv "videos/clip.mp4" demoWorld).events = true := by
    decide
  have hf : insertSucceeded (uploadVideo demoEnv "videos/missing.mp4" demoWorld).events = false := by
    decide
  refine ⟨hs, by decide, (h.2.2.2.1 hs (by decide)).1, (h.2.2.2.1 hs (by decide)).2, hf,
    (h2.2.2.1 hf).1, fun q hq => ?_⟩
  have := h2.1.mp ⟨q, hq⟩
  rw [hf] at this
  cases this

/-- C1 (as stated, refuted): the insert call reports success, `os.Remove` is
called and fails, and the source file still exists when the process ends. -/
theorem uploadVideo_keeps_file_when_remove_fails :
    insertSucceeded (uploadVideo lockedEnv "videos/clip.mp4" demoWorld).events = true ∧
    Event.remove "videos/clip.mp4" ∈ (uploadVideo lockedEnv "videos/clip.mp4" demoWorld).events ∧
    (uploadVideo lockedEnv "videos/clip.mp4" demoWorld).status = .exited 1 ∧
    (uploadVideo lockedEnv "videos/clip.mp4" demoWorld).world.files "videos/clip.mp4" =
      some [10, 20, 30, 40, 50, 60] := by
  decide

/-- C7 (amended): in every run in which the insert call succeeds, the calls on
the video file are, after the authentication calls: open, stat, reads, then
`os.Remove` on the video path while the handle is still open; the deferred close
is the last call, and it is made only when `os.Remove` succeeded and
`uploadVideo` returns. -/
theorem uploadVideo_remove_then_close (env : Env) (p : String) (w : World)
    (h : insertSucceeded (uploadVideo env p w).events = true) :
    ∃ (pre : List Event) (lens : List Nat) (body : Bytes) (id : String),
      pre.all Event.isAuth = true ∧
      (uploadVideo env p w).events =
        pre ++ .osOpen p :: .stat p :: (lens.map (Event.read p) ++
          (.insert ["snippet", "status"] (videoFor (baseName p)) body (some id) ::
            .remove p :: (if env.removeDenied p then [] else [.close p]))) ∧
      (uploadVideo env p w).status = (if env.removeDenied p then .exited 1 else .returned ()) := by
  rcases uploadVideo_cases env p w with
    ⟨h1, h2, h3, h4⟩ | ⟨content, id, lens, hf, hk, hauth, hres, hsum, hev, hbar, hst, hfiles⟩
  · rw [h3] at h; cases h
  · exact ⟨_, lens, content, id, hauth, hev, hst⟩

theorem uploadVideo_remove_then_close_witness :
    insertSucceeded (uploadVideo lockedEnv "videos/clip.mp4" demoWorld).events = true ∧
    ∃ (pre : List Event) (lens : List Nat) (body : Bytes) (id : String),
      pre.all Event.isAuth = true ∧
      (uploadVideo lockedEnv "videos/clip.mp4" demoWorld).events =
        pre ++ .osOpen "videos/clip.mp4" :: .stat "videos/clip.mp4" ::
          (lens.map (Event.read "videos/clip.mp4") ++
            (.insert ["snippet", "status"] (videoFor (baseName "videos/clip.mp4")) body (some id) ::
              .remove "videos/clip.mp4" ::
                (if lockedEnv.removeDenied "videos/clip.mp4" then []
                  else [.close "videos/clip.mp4"]))) ∧
      (uploadVideo lockedEnv "videos/clip.mp4" demoWorld).status =
        (if lockedEnv.removeDenied "videos/clip.mp4" then .exited 1 else .returned ()) :=
  ⟨by decide, uploadVideo_remove_then_close lockedEnv "videos/clip.mp4" demoWorld (by decide)⟩

/-- C7 (as stated, refuted): in this run the upload succeeds and `os.Remove` on
the video path comes before the close of the handle opened for the upload. -/
theorem uploadVideo_closes_after_remove :
    (uploadVideo demoEnv "videos/clip.mp4" demoWorld).events =
      [.readFile "credentials.json",
        .osOpen "token.json", .read "token.json" 5, .close "token.json",
        .newService,
        .osOpen "videos/clip.mp4", .stat "videos/clip.mp4",
        .read "videos/clip.mp4" 4, .read "videos/clip.mp4" 2, .read "videos/clip.mp4" 0,
        .insert ["snippet", "status"]
          { Snippet := { Title := "clip", Description := "", Tags := [], CategoryId := "22" },
            Status := { PrivacyStatus := "private" } }
          [10, 20, 30, 40, 50, 60] (some "vid42"),
        .remove "videos/clip.mp4",
        .close "videos/clip.mp4"] := by
  decide

/-- C9: every insert call a run of `uploadVideo` makes asks for exactly the parts
snippet and status and carries an empty description, no tag, category id "22" and
privacy status "private"; the title is the base name of the path without its
extension. -/
theorem uploadVideo_request_metadata (env : Env) (p : String) (w : World)
    (parts : List String) (v : Video) (body : Bytes) (id : Option String)
    (h : Event.insert parts v body id ∈ (uploadVideo env p w).events) :
    parts = ["snippet", "status"] ∧
    v.Snippet.Description = "" ∧
    v.Snippet.Tags = [] ∧
    v.Snippet.CategoryId = "22" ∧
    v.Status.PrivacyStatus = "private" ∧
    v.Snippet.Title = TrimSuffix (baseName p) (Ext (baseName p)) := by
  have ha := authPhase_kept env w
  rw [uploadVideo_run] at h
  cases hst : (authPhase env w).status with
  | exited c =>
    simp only [hst] at h
    exact absurd h (not_mem_of_auth _ ha.2.1 (Event.insert parts v body id) rfl)
  | returned client =>
    simp only [hst] at h
    rcases List.mem_append.mp h with h | h
    · exact absurd h (not_mem_of_auth _ ha.2.1 (Event.insert parts v body id) rfl)
    · obtain ⟨hp, hv⟩ := sendPhase_insert_form env p _ parts v body id h
      subst hv
      exact ⟨hp, rfl, rfl, rfl, rfl, rfl⟩

theorem uploadVideo_request_metadata_witness :
    Event.insert ["snippet", "status"]
        { Snippet := { Title := "clip", Description := "", Tags := [], CategoryId := "22" },
          Status := { PrivacyStatus := "private" } }
        [10, 20, 30, 40, 50, 60] (some "vid42") ∈
      (uploadVideo demoEnv "videos/clip.mp4" demoWorld).events ∧
    "clip" = TrimSuffix (baseName "videos/clip.mp4") (Ext (baseName "videos/clip.mp4")) :=
  ⟨by decide,
    (uploadVideo_request_metadata demoEnv "videos/clip.mp4" demoWorld _ _ _ _
      (show Event.insert ["snippet", "status"]
        { Snippet := { Title := "clip", Description := "", Tags := [], CategoryId := "22" },
          Status := { PrivacyStatus := "private" } }
        [10, 20, 30, 40, 50, 60] (some "vid42") ∈
          (uploadVideo demoEnv "videos/clip.mp4" demoWorld).events by decide)).2.2.2.2.2⟩

/-- C10: in every run in which the insert call succeeds, the indicator was
started with the size of the file as its total, the bytes the call received
through the proxy reader are the content of the file, the byte counts of the
reads add up to that size, and the indicator, stopped by `Finish`, shows a
cumulative count equal to its total. -/
theorem uploadVideo_progress (env : Env) (p : String) (w : World)
    (h : insertSucceeded (uploadVideo env p w).events = true) :
    ∃ (content : Bytes) (id : String) (lens : List Nat),
      (authPhase env w).world.files p = some content ∧
      (p ≠ tokenFile → w.files p = some content) ∧
      Event.insert ["snippet", "status"] (videoFor (baseName p)) content (some id) ∈
        (uploadVideo env p w).events ∧
      (∀ e ∈ (uploadVideo env p w).events, (∃ n, e = .read p n) ∨ e.isAuth = true ∨
        e = .stat p ∨ e = .remove p ∨
        e = .insert ["snippet", "status"] (videoFor (baseName p)) content (some id)) ∧
      lens.sum = content.length ∧
      (∃ pre post, (uploadVideo env p w).events =
        pre ++ .stat p :: (lens.map (Event.read p) ++ post)) ∧
      (uploadVideo env p w).world.bar = some ⟨content.length, content.length, true⟩ := by
  rcases uploadVideo_cases env p w with
    ⟨h1, h2, h3, h4⟩ | ⟨content, id, lens, hf, hk, hauth, hres, hsum, hev, hbar, hst, hfiles⟩
  · rw [h3] at h; cases h
  · refine ⟨content, id, lens, hf, fun hp => ?_, ?_, ?_, hsum, ?_, hbar⟩
    · rw [← (hk p).1 hp]; exact hf
    · rw [hev]; simp
    · intro e he
      rw [hev] at he
      rcases List.mem_append.mp he with he | he
      · exact Or.inr (Or.inl ((List.all_eq_true.mp hauth) e he))
      · simp only [List.mem_cons, List.mem_append] at he
        rcases he with he | he | he | he | he | he
        · subst he; exact Or.inr (Or.inl rfl)
        · exact Or.inr (Or.inr (Or.inl he))
        · exact Or.inl (mem_reads p lens e he)
        · exact Or.inr (Or.inr (Or.inr (Or.inr he)))
        · exact Or.inr (Or.inr (Or.inr (Or.inl he)))
        · by_cases hd : env.removeDenied p = true
          · simp [hd] at he
          · simp only [hd, Bool.false_eq_true, if_false, List.mem_singleton] at he
            subst he; exact Or.inr (Or.inl rfl)
    · exact ⟨(authPhase env w).events ++ [.osOpen p],
        .insert ["snippet", "status"] (videoFor (baseName p)) content (some id) ::
          .remove p :: (if env.removeDenied p then [] else [.close p]),
        by rw [hev]; simp⟩

theorem uploadVideo_progress_witness :
    insertSucceeded (uploadVideo demoEnv "videos/clip.mp4" demoWorld).events = true ∧
    (uploadVideo demoEnv "videos/clip.mp4" demoWorld).world.bar = some ⟨6, 6, true⟩ ∧
    ∃ (content : Bytes) (id : String) (lens : List Nat),
      (authPhase demoEnv demoWorld).world.files "videos/clip.mp4" = some content ∧
      ("videos/clip.mp4" ≠ tokenFile → demoWorld.files "videos/clip.mp4" = some content) ∧
      Event.insert ["snippet", "status"] (videoFor (baseName "videos/clip.mp4")) content (some id) ∈
        (uploadVideo demoEnv "videos/clip.mp4" demoWorld).events ∧
      (∀ e ∈ (uploadVideo demoEnv "videos/clip.mp4" demoWorld).events,
        (∃ n, e = .read "videos/clip.mp4" n) ∨ e.isAuth = true ∨
        e = .stat "videos/clip.mp4" ∨ e = .remove "videos/clip.mp4" ∨
        e = .insert ["snippet", "status"] (videoFor (baseName "videos/clip.mp4")) content
          (some id)) ∧
      lens.sum = content.length ∧
      (∃ pre post, (uploadVideo demoEnv "videos/clip.mp4" demoWorld).events =
        pre ++ .stat "videos/clip.mp4" :: (lens.map (Event.read "videos/clip.mp4") ++ post)) ∧
      (uploadVideo demoEnv "videos/clip.mp4" demoWorld).world.bar =
        some ⟨content.length, content.length, true⟩ :=
  ⟨by decide, by decide, uploadVideo_progress demoEnv "videos/clip.mp4" demoWorld (by decide)⟩

/-- C4 (the code at the failing input): the cached token loads and has expired,
the token source hands out a new token, `token.json` opens for writing and the
write fails.  `saveToken` drops the error of `Encode`, so `getClient` builds the
client from the new token although it was not saved: nothing is reported on
standard error, and `token.json` is left empty, the old token gone with it. -/
theorem getClient_refreshed_token_not_saved :
    (tokenFromFile lateFullDiskEnv tokenFile demoWorld).status = .returned (some demoToken) ∧
    demoToken.Expiry < lateFullDiskEnv.now ∧
    lateFullDiskEnv.refresh demoToken = some freshToken ∧
    lateFullDiskEnv.encode freshToken = some freshJSON ∧
    (getClient lateFullDiskEnv demoConfig demoWorld).status
      = .returned ⟨demoConfig, freshToken⟩ ∧
    (getClient lateFullDiskEnv demoConfig demoWorld).events =
      [.osOpen tokenFile, .read tokenFile 5, .close tokenFile, .tokenRequest demoToken,
        .openFile tokenFile, .write tokenFile, .close tokenFile] ∧
    (getClient lateFullDiskEnv demoConfig demoWorld).world.stderr = [] ∧
    (getClient lateFullDiskEnv demoConfig demoWorld).world.files tokenFile = some [] := by
  decide

/-- C8 (the code at the failing input): `token.json` is missing, the interactive
flow obtains a token, `token.json` opens for writing and the write fails.
`saveToken` drops the error of `Encode`, so `getClient` builds the client from
the token although it was not persisted: nothing is reported on standard error,
and `token.json` is left empty. -/
theorem getClient_web_token_not_persisted :
    bareWorld.files tokenFile = none ∧
    (tokenFromFile fullDiskEnv tokenFile bareWorld).status = .returned none ∧
    fullDiskEnv.encode freshToken = some freshJSON ∧
    (getClient fullDiskEnv demoConfig bareWorld).status = .returned ⟨demoConfig, freshToken⟩ ∧
    (getClient fullDiskEnv demoConfig bareWorld).events =
      [.osOpen tokenFile, .scan, .exchange "4/0A", .openFile tokenFile, .write tokenFile,
        .close tokenFile] ∧
    (getClient fullDiskEnv demoConfig bareWorld).world.stderr = [] ∧
    (getClient fullDiskEnv demoConfig bareWorld).world.files tokenFile = some [] := by
  decide

end YoutubeUl
